import Mathlib

/-!
# The idle-time garbage-collection handler of V8

A shallow embedding of `src/heap/gc-idle-time-handler.cc` and theorems about it.

Conventions of the embedding:

* `size_t` values are natural numbers; the one place where the source can wrap
  (the product in `EstimateMarkingStepSize`) is reduced modulo `2 ^ sizeBits`.
* `int` values are integers.  The selector's counter is only incremented below
  `kMaxNoProgressIdleTimes`, an `int`, so the increment never wraps.
* a finite `double` is the rational number it denotes.  Comparisons are exact.
  `static_cast<int>` truncates toward zero into a 32-bit `int`.  C++ leaves the conversion
  undefined when the truncated value is not representable in `int`; the embedding then
  takes what the x86-64 conversion instruction delivers, `INT_MIN`.  The one arithmetic
  operation on doubles, the product with `kConservativeTimeRatio`, is modelled with
  IEEE-754 binary64 round-to-nearest-even.
* the constants that the source uses but the header defines are fields of
  `HeaderConstants`; the flag `FLAG_incremental_marking` is an argument.
-/

/-- The tag of an action, as switched over by `GCIdleTimeAction::Print`. -/
inductive GCIdleTimeActionType where
  | DONE
  | DO_NOTHING
  | DO_INCREMENTAL_STEP
  | DO_FULL_GC
  deriving DecidableEq, Repr

/-- The result of a decision: the fields `type` and `additional_work` read by
`GCIdleTimeAction::Print`. -/
structure GCIdleTimeAction where
  type : GCIdleTimeActionType
  additional_work : Bool
  deriving DecidableEq, Repr

namespace GCIdleTimeAction

/-- Modelled from the spec: the factory `GCIdleTimeAction::Done()` is defined in the header;
the spec's `Done` variant, which carries no qualifier. -/
def Done : GCIdleTimeAction := ⟨GCIdleTimeActionType.DONE, false⟩

/-- Modelled from the spec: the factory `GCIdleTimeAction::Nothing()` is defined in the
header; the spec's `DoNothing` variant, which carries no qualifier. -/
def Nothing : GCIdleTimeAction := ⟨GCIdleTimeActionType.DO_NOTHING, false⟩

/-- Modelled from the spec: the factory `GCIdleTimeAction::IncrementalStep()` is defined in
the header; the spec's `IncrementalStep` variant with its optional qualifier unset. -/
def IncrementalStep : GCIdleTimeAction := ⟨GCIdleTimeActionType.DO_INCREMENTAL_STEP, false⟩

/-- Modelled from the spec: the factory `GCIdleTimeAction::FullGC()` is defined in the header;
the spec's `FullGC` variant, which carries no qualifier. -/
def FullGC : GCIdleTimeAction := ⟨GCIdleTimeActionType.DO_FULL_GC, false⟩

end GCIdleTimeAction

/-- The heap snapshot: the fields printed by `GCIdleTimeHeapState::Print`, in that order. -/
structure GCIdleTimeHeapState where
  contexts_disposed : Int
  contexts_disposal_rate : ℚ
  size_of_objects : Nat
  incremental_marking_stopped : Bool
  sweeping_in_progress : Bool
  has_low_allocation_rate : Bool
  mark_compact_speed_in_bytes_per_ms : Nat
  incremental_marking_speed_in_bytes_per_ms : Nat

/-- The constants that `gc-idle-time-handler.cc` reads but that are defined in the header,
together with the width of `size_t`. -/
structure HeaderConstants where
  sizeBits : Nat
  kMaximumMarkingStepSize : Nat
  kInitialConservativeMarkingSpeed : Nat
  kInitialConservativeMarkCompactSpeed : Nat
  kInitialConservativeFinalIncrementalMarkCompactSpeed : Nat
  kMaxScheduledIdleTime : Nat
  kMinBackgroundIdleTime : ℚ
  kMaxNoProgressIdleTimes : Int

/-- The selector: its only member is the counter `idle_times_which_made_no_progress_`. -/
structure GCIdleTimeHandler where
  idle_times_which_made_no_progress_ : Int
  deriving DecidableEq, Repr

namespace GCIdleTimeHandler

/-- A freshly constructed selector: the counter starts at 0. -/
def fresh : GCIdleTimeHandler := ⟨0⟩

/-- `kMaxMarkCompactTimeInMs = 1000`. -/
def kMaxMarkCompactTimeInMs : Nat := 1000

/-- `kMaxFinalIncrementalMarkCompactTimeInMs = 1000`. -/
def kMaxFinalIncrementalMarkCompactTimeInMs : Nat := 1000

/-- `kHighContextDisposalRate = 100`. -/
def kHighContextDisposalRate : ℚ := 100

/-- `kMinTimeForOverApproximatingWeakClosureInMs = 1`. -/
def kMinTimeForOverApproximatingWeakClosureInMs : Nat := 1

/-- `kConservativeTimeRatio = 0.9`: the binary64 number nearest to 9/10 is
`8106479329266893 / 2 ^ 53` (bit pattern `0x3FECCCCCCCCCCCCD`); this is its numerator. -/
def kConservativeTimeRatioNumerator : Nat := 8106479329266893

/-- The number of low-order bits of `n` that do not fit in a 53-bit significand: the least
`e` with `n / 2 ^ e < 2 ^ 53`.  The first argument bounds the recursion and is always
called with `n` itself. -/
def excessBits : Nat → Nat → Nat
  | 0, _ => 0
  | fuel + 1, n => if n < 2 ^ 53 then 0 else excessBits fuel (n / 2) + 1

/-- Rounding of a natural number to 53 significant bits, to nearest, ties to even: the
binary64 rounding of a non-negative value given as an integer multiple of a power of two. -/
def roundSig53 (n : Nat) : Nat :=
  let e := excessBits n n
  let q := n / 2 ^ e
  let r := n % 2 ^ e
  if 2 ^ e < 2 * r ∨ (2 * r = 2 ^ e ∧ q % 2 = 1) then (q + 1) * 2 ^ e else q * 2 ^ e

/-- The expression `static_cast<size_t>(marking_step_size * kConservativeTimeRatio)`: the
`size_t` is converted to `double` (rounded to 53 bits), multiplied by the `double` 0.9
(the exact product, a multiple of `2 ^ -53`, rounded to 53 bits) and truncated. -/
def scaleByConservativeTimeRatio (marking_step_size : Nat) : Nat :=
  roundSig53 (roundSig53 marking_step_size * kConservativeTimeRatioNumerator) / 2 ^ 53

/-- `static_cast<int>` of a `double`, `int` being 32 bits wide: truncation toward zero when
the truncated value lies between `INT_MIN = -2 ^ 31` and `INT_MAX = 2 ^ 31 - 1`.  Outside
that range the conversion is undefined in C++; the x86-64 conversion instruction returns
`INT_MIN`, and so does the embedding. -/
def static_cast_int (x : ℚ) : Int :=
  let truncated := Int.tdiv x.num x.den
  if -2 ^ 31 ≤ truncated ∧ truncated < 2 ^ 31 then truncated else -2 ^ 31

/-- Modelled from the spec: `Min` of `src/utils.h`, the smaller of two values. -/
def Min (a b : Nat) : Nat := if a < b then a else b

/-- `GCIdleTimeHandler::EstimateMarkingStepSize`.  The `DCHECK(idle_time_in_ms > 0)` is a
debug-only assertion and is a precondition here. -/
def EstimateMarkingStepSize (k : HeaderConstants) (idle_time_in_ms : Nat)
    (marking_speed_in_bytes_per_ms : Nat) : Nat :=
  let marking_speed_in_bytes_per_ms :=
    if marking_speed_in_bytes_per_ms = 0 then k.kInitialConservativeMarkingSpeed
    else marking_speed_in_bytes_per_ms
  let marking_step_size := (marking_speed_in_bytes_per_ms * idle_time_in_ms) % 2 ^ k.sizeBits
  if marking_step_size / marking_speed_in_bytes_per_ms ≠ idle_time_in_ms then
    k.kMaximumMarkingStepSize
  else if marking_step_size > k.kMaximumMarkingStepSize then
    k.kMaximumMarkingStepSize
  else
    scaleByConservativeTimeRatio marking_step_size

/-- `GCIdleTimeHandler::EstimateMarkCompactTime`. -/
def EstimateMarkCompactTime (k : HeaderConstants) (size_of_objects : Nat)
    (mark_compact_speed_in_bytes_per_ms : Nat) : Nat :=
  let mark_compact_speed_in_bytes_per_ms :=
    if mark_compact_speed_in_bytes_per_ms = 0 then k.kInitialConservativeMarkCompactSpeed
    else mark_compact_speed_in_bytes_per_ms
  let result := size_of_objects / mark_compact_speed_in_bytes_per_ms
  Min result kMaxMarkCompactTimeInMs

/-- `GCIdleTimeHandler::EstimateFinalIncrementalMarkCompactTime`. -/
def EstimateFinalIncrementalMarkCompactTime (k : HeaderConstants) (size_of_objects : Nat)
    (final_incremental_mark_compact_speed_in_bytes_per_ms : Nat) : Nat :=
  let final_incremental_mark_compact_speed_in_bytes_per_ms :=
    if final_incremental_mark_compact_speed_in_bytes_per_ms = 0 then
      k.kInitialConservativeFinalIncrementalMarkCompactSpeed
    else final_incremental_mark_compact_speed_in_bytes_per_ms
  let result := size_of_objects / final_incremental_mark_compact_speed_in_bytes_per_ms
  Min result kMaxFinalIncrementalMarkCompactTimeInMs

/-- `GCIdleTimeHandler::ShouldDoMarkCompact`. -/
def ShouldDoMarkCompact (k : HeaderConstants) (idle_time_in_ms size_of_objects : Nat)
    (mark_compact_speed_in_bytes_per_ms : Nat) : Bool :=
  decide (idle_time_in_ms ≥ k.kMaxScheduledIdleTime) &&
    decide (idle_time_in_ms ≥
      EstimateMarkCompactTime k size_of_objects mark_compact_speed_in_bytes_per_ms)

/-- `GCIdleTimeHandler::ShouldDoContextDisposalMarkCompact`. -/
def ShouldDoContextDisposalMarkCompact (contexts_disposed : Int)
    (contexts_disposal_rate : ℚ) : Bool :=
  decide (contexts_disposed > 0) && decide (contexts_disposal_rate > 0) &&
    decide (contexts_disposal_rate < kHighContextDisposalRate)

/-- `GCIdleTimeHandler::ShouldDoFinalIncrementalMarkCompact`. -/
def ShouldDoFinalIncrementalMarkCompact (k : HeaderConstants)
    (idle_time_in_ms size_of_objects : Nat)
    (final_incremental_mark_compact_speed_in_bytes_per_ms : Nat) : Bool :=
  decide (idle_time_in_ms ≥
    EstimateFinalIncrementalMarkCompactTime k size_of_objects
      final_incremental_mark_compact_speed_in_bytes_per_ms)

/-- `GCIdleTimeHandler::ShouldDoOverApproximateWeakClosure`. -/
def ShouldDoOverApproximateWeakClosure (idle_time_in_ms : Nat) : Bool :=
  decide (idle_time_in_ms ≥ kMinTimeForOverApproximatingWeakClosureInMs)

/-- `GCIdleTimeHandler::NothingOrDone`: the action returned and the selector after the
call. -/
def NothingOrDone (k : HeaderConstants) (self : GCIdleTimeHandler) (idle_time_in_ms : ℚ) :
    GCIdleTimeAction × GCIdleTimeHandler :=
  if idle_time_in_ms ≥ k.kMinBackgroundIdleTime then
    (GCIdleTimeAction.Nothing, self)
  else if self.idle_times_which_made_no_progress_ ≥ k.kMaxNoProgressIdleTimes then
    (GCIdleTimeAction.Done, self)
  else
    (GCIdleTimeAction.Nothing, ⟨self.idle_times_which_made_no_progress_ + 1⟩)

/-- `GCIdleTimeHandler::Compute`: the action returned and the selector after the call. -/
def Compute (k : HeaderConstants) (FLAG_incremental_marking : Bool)
    (self : GCIdleTimeHandler) (idle_time_in_ms : ℚ) (heap_state : GCIdleTimeHeapState) :
    GCIdleTimeAction × GCIdleTimeHandler :=
  if static_cast_int idle_time_in_ms ≤ 0 then
    if heap_state.incremental_marking_stopped &&
        ShouldDoContextDisposalMarkCompact heap_state.contexts_disposed
          heap_state.contexts_disposal_rate then
      (GCIdleTimeAction.FullGC, self)
    else
      (GCIdleTimeAction.Nothing, self)
  else if ShouldDoContextDisposalMarkCompact heap_state.contexts_disposed
      heap_state.contexts_disposal_rate then
    NothingOrDone k self idle_time_in_ms
  else if !FLAG_incremental_marking || heap_state.incremental_marking_stopped then
    (GCIdleTimeAction.Done, self)
  else
    (GCIdleTimeAction.IncrementalStep, self)

/-- An example choice of the header constants, on a 64-bit target. -/
def exampleConstants : HeaderConstants where
  sizeBits := 64
  kMaximumMarkingStepSize := 700 * 1024 * 1024
  kInitialConservativeMarkingSpeed := 100 * 1024
  kInitialConservativeMarkCompactSpeed := 2 * 1024 * 1024
  kInitialConservativeFinalIncrementalMarkCompactSpeed := 2 * 1024 * 1024
  kMaxScheduledIdleTime := 50
  kMinBackgroundIdleTime := 900
  kMaxNoProgressIdleTimes := 10

/-- An example heap state: one context disposed at a low rate, marking stopped. -/
def disposalState : GCIdleTimeHeapState where
  contexts_disposed := 1
  contexts_disposal_rate := 1
  size_of_objects := 0
  incremental_marking_stopped := true
  sweeping_in_progress := false
  has_low_allocation_rate := false
  mark_compact_speed_in_bytes_per_ms := 0
  incremental_marking_speed_in_bytes_per_ms := 0

/-- The selector after a sequence of `Compute` calls, each with its own idle time and heap
state, made one after the other. -/
def computeAll (k : HeaderConstants) (FLAG_incremental_marking : Bool) :
    GCIdleTimeHandler → List (ℚ × GCIdleTimeHeapState) → GCIdleTimeHandler
  | self, [] => self
  | self, (idle_time_in_ms, heap_state) :: rest =>
    computeAll k FLAG_incremental_marking
      (Compute k FLAG_incremental_marking self idle_time_in_ms heap_state).2 rest

/-- An example heap state: no context disposed, incremental marking in progress. -/
def markingState : GCIdleTimeHeapState where
  contexts_disposed := 0
  contexts_disposal_rate := 0
  size_of_objects := 0
  incremental_marking_stopped := false
  sweeping_in_progress := false
  has_low_allocation_rate := false
  mark_compact_speed_in_bytes_per_ms := 0
  incremental_marking_speed_in_bytes_per_ms := 0

/-- An example heap state: no context disposed, incremental marking stopped. -/
def stoppedState : GCIdleTimeHeapState where
  contexts_disposed := 0
  contexts_disposal_rate := 0
  size_of_objects := 0
  incremental_marking_stopped := true
  sweeping_in_progress := false
  has_low_allocation_rate := false
  mark_compact_speed_in_bytes_per_ms := 0
  incremental_marking_speed_in_bytes_per_ms := 0

/-- The example constants with the background idle-time threshold set to 0. -/
def zeroBackgroundConstants : HeaderConstants :=
  { exampleConstants with kMinBackgroundIdleTime := 0 }

/-- The example constants with a maximum marking step size of `2 ^ 63` bytes. -/
def largeStepConstants : HeaderConstants :=
  { exampleConstants with kMaximumMarkingStepSize := 2 ^ 63 }

/-- A call in the context-disposal scenario with a short idle time: the disposal predicate
holds for the heap state, and the idle time is at least 1, below `2 ^ 31` (its truncation
fits in `int`) and below `kMinBackgroundIdleTime`. -/
def IsShortDisposalCall (k : HeaderConstants) (c : ℚ × GCIdleTimeHeapState) : Prop :=
  ShouldDoContextDisposalMarkCompact c.2.contexts_disposed c.2.contexts_disposal_rate = true ∧
    1 ≤ c.1 ∧ c.1 < 2 ^ 31 ∧ c.1 < k.kMinBackgroundIdleTime

/-- The example constants with the background idle-time threshold set to 4000000000 ms,
beyond the range of `int`. -/
def distantBackgroundConstants : HeaderConstants :=
  { exampleConstants with kMinBackgroundIdleTime := 4000000000 }

/-- Division of `size_t` values, `a / b` in the source: undefined for a zero divisor. -/
def sizeDiv (a b : Nat) : Option Nat := if b = 0 then none else some (a / b)

/-- `GCIdleTimeHandler::EstimateMarkingStepSize` with its division made partial: `none` when
the source would divide by zero. -/
def EstimateMarkingStepSizeChecked (k : HeaderConstants) (idle_time_in_ms : Nat)
    (marking_speed_in_bytes_per_ms : Nat) : Option Nat :=
  let marking_speed_in_bytes_per_ms :=
    if marking_speed_in_bytes_per_ms = 0 then k.kInitialConservativeMarkingSpeed
    else marking_speed_in_bytes_per_ms
  let marking_step_size := (marking_speed_in_bytes_per_ms * idle_time_in_ms) % 2 ^ k.sizeBits
  match sizeDiv marking_step_size marking_speed_in_bytes_per_ms with
  | none => none
  | some quotient =>
    if quotient ≠ idle_time_in_ms then
      some k.kMaximumMarkingStepSize
    else if marking_step_size > k.kMaximumMarkingStepSize then
      some k.kMaximumMarkingStepSize
    else
      some (scaleByConservativeTimeRatio marking_step_size)

/-- `GCIdleTimeHandler::EstimateMarkCompactTime` with its division made partial. -/
def EstimateMarkCompactTimeChecked (k : HeaderConstants) (size_of_objects : Nat)
    (mark_compact_speed_in_bytes_per_ms : Nat) : Option Nat :=
  let mark_compact_speed_in_bytes_per_ms :=
    if mark_compact_speed_in_bytes_per_ms = 0 then k.kInitialConservativeMarkCompactSpeed
    else mark_compact_speed_in_bytes_per_ms
  match sizeDiv size_of_objects mark_compact_speed_in_bytes_per_ms with
  | none => none
  | some result => some (Min result kMaxMarkCompactTimeInMs)

/-- `GCIdleTimeHandler::EstimateFinalIncrementalMarkCompactTime` with its division made
partial. -/
def EstimateFinalIncrementalMarkCompactTimeChecked (k : HeaderConstants)
    (size_of_objects : Nat)
    (final_incremental_mark_compact_speed_in_bytes_per_ms : Nat) : Option Nat :=
  let final_incremental_mark_compact_speed_in_bytes_per_ms :=
    if final_incremental_mark_compact_speed_in_bytes_per_ms = 0 then
      k.kInitialConservativeFinalIncrementalMarkCompactSpeed
    else final_incremental_mark_compact_speed_in_bytes_per_ms
  match sizeDiv size_of_objects final_incremental_mark_compact_speed_in_bytes_per_ms with
  | none => none
  | some result => some (Min result kMaxFinalIncrementalMarkCompactTimeInMs)

/-- Whether a `Compute` call reaches `NothingOrDone` with an idle time below
`kMinBackgroundIdleTime`: the truncated idle time is positive, the disposal predicate
holds, and the idle time is below the threshold. -/
def reachesNoProgress (k : HeaderConstants) (idle_time_in_ms : ℚ)
    (heap_state : GCIdleTimeHeapState) : Bool :=
  decide (0 < static_cast_int idle_time_in_ms) &&
    ShouldDoContextDisposalMarkCompact heap_state.contexts_disposed
      heap_state.contexts_disposal_rate &&
    decide (idle_time_in_ms < k.kMinBackgroundIdleTime)

/-- The actions returned, in order, by those calls of a sequence of `Compute` calls that
reach `NothingOrDone` with an idle time below `kMinBackgroundIdleTime`.  Every call has its
own flag value, idle time and heap state. -/
def noProgressActions (k : HeaderConstants) :
    GCIdleTimeHandler → List (Bool × ℚ × GCIdleTimeHeapState) → List GCIdleTimeAction
  | _, [] => []
  | self, (flag, idle_time_in_ms, heap_state) :: rest =>
    if reachesNoProgress k idle_time_in_ms heap_state then
      (Compute k flag self idle_time_in_ms heap_state).1 ::
        noProgressActions k (Compute k flag self idle_time_in_ms heap_state).2 rest
    else
      noProgressActions k (Compute k flag self idle_time_in_ms heap_state).2 rest

/-- A call of one of the two member functions that touch the selector. -/
inductive HandlerCall where
  | compute (FLAG_incremental_marking : Bool) (idle_time_in_ms : ℚ)
      (heap_state : GCIdleTimeHeapState)
  | nothingOrDone (idle_time_in_ms : ℚ)

/-- The selector after one call. -/
def runCall (k : HeaderConstants) (self : GCIdleTimeHandler) : HandlerCall → GCIdleTimeHandler
  | HandlerCall.compute flag idle_time_in_ms heap_state =>
    (Compute k flag self idle_time_in_ms heap_state).2
  | HandlerCall.nothingOrDone idle_time_in_ms => (NothingOrDone k self idle_time_in_ms).2

/-- The selector after a sequence of calls, made one after the other. -/
def runCalls (k : HeaderConstants) : GCIdleTimeHandler → List HandlerCall → GCIdleTimeHandler
  | self, [] => self
  | self, c :: rest => runCalls k (runCall k self c) rest

/-- An example heap state that agrees with `disposalState` on the disposed contexts, the
disposal rate and the marking status, and differs in every other field. -/
def largeHeapDisposalState : GCIdleTimeHeapState where
  contexts_disposed := 1
  contexts_disposal_rate := 1
  size_of_objects := 2 ^ 40
  incremental_marking_stopped := true
  sweeping_in_progress := true
  has_low_allocation_rate := true
  mark_compact_speed_in_bytes_per_ms := 1
  incremental_marking_speed_in_bytes_per_ms := 1

/-- The example constants with a single tolerated idle round without progress. -/
def singleTryConstants : HeaderConstants :=
  { exampleConstants with kMaxNoProgressIdleTimes := 1 }

/-- Rounding of `n` to a multiple of `2 ^ e`, to nearest, ties to even: the body of
`roundSig53` at a given number of excess bits. -/
def roundAt (e n : Nat) : Nat :=
  if 2 ^ e < 2 * (n % 2 ^ e) ∨ (2 * (n % 2 ^ e) = 2 ^ e ∧ n / 2 ^ e % 2 = 1) then
    (n / 2 ^ e + 1) * 2 ^ e
  else n / 2 ^ e * 2 ^ e

/-! ## Auxiliary facts -/

theorem truncation_of_nonneg {x : ℚ} (hx : 0 ≤ x) : Int.tdiv x.num x.den = ⌊x⌋ := by
  rw [Int.tdiv_eq_ediv (Rat.num_nonneg.mpr hx) (Int.ofNat_nonneg _), Rat.floor_def]

theorem truncation_of_nonpos {x : ℚ} (hx : x ≤ 0) : Int.tdiv x.num x.den ≤ 0 := by
  have hnum : 0 ≤ -x.num := by
    have := Rat.num_nonneg.mpr (neg_nonneg.mpr hx)
    simpa using this
  have h := Int.tdiv_nonneg hnum (Int.ofNat_nonneg x.den)
  rw [Int.neg_tdiv] at h
  omega

/-- The mathematical truncation is non-positive exactly when the value is below 1. -/
theorem truncation_le_zero_iff (x : ℚ) : Int.tdiv x.num x.den ≤ 0 ↔ x < 1 := by
  rcases le_or_lt 0 x with hx | hx
  · rw [truncation_of_nonneg hx, Int.floor_le_iff]
    simp
  · constructor
    · intro _
      linarith
    · intro _
      exact truncation_of_nonpos hx.le

/-- The mathematical truncation reaches `2 ^ 31` exactly when the value does. -/
theorem truncation_ge_iff (x : ℚ) : 2 ^ 31 ≤ Int.tdiv x.num x.den ↔ 2 ^ 31 ≤ x := by
  rcases le_or_lt 0 x with hx | hx
  · rw [truncation_of_nonneg hx, Int.le_floor]
    norm_num
  · constructor
    · intro h
      have := truncation_of_nonpos hx.le
      omega
    · intro h
      linarith

/-- The idle time converted to `int` is non-positive exactly when the idle time is below 1
or, the conversion being out of range, at least `2 ^ 31`. -/
theorem static_cast_int_le_zero_iff (x : ℚ) :
    static_cast_int x ≤ 0 ↔ (x < 1 ∨ 2 ^ 31 ≤ x) := by
  have h1 := truncation_le_zero_iff x
  have h2 := truncation_ge_iff x
  simp only [static_cast_int]
  generalize Int.tdiv x.num x.den = t at h1 h2
  split
  · rename_i hin
    constructor
    · intro h
      exact Or.inl (h1.mp h)
    · rintro (h | h)
      · exact h1.mpr h
      · have := h2.mpr h
        omega
  · rename_i hout
    constructor
    · intro _
      by_cases hlow : t < 2 ^ 31
      · exact Or.inl (h1.mp (by omega))
      · exact Or.inr (h2.mp (by omega))
    · intro _
      norm_num

theorem shouldDoContextDisposalMarkCompact_iff (n : Int) (r : ℚ) :
    ShouldDoContextDisposalMarkCompact n r = true ↔ (n > 0 ∧ 0 < r ∧ r < 100) := by
  simp [ShouldDoContextDisposalMarkCompact, kHighContextDisposalRate, and_assoc]

/-- `Compute` on an idle time below 1: only the first branch is taken. -/
theorem compute_of_lt_one (k : HeaderConstants) (flag : Bool) (self : GCIdleTimeHandler)
    (idle : ℚ) (st : GCIdleTimeHeapState) (h : idle < 1) :
    Compute k flag self idle st =
      if st.incremental_marking_stopped &&
          ShouldDoContextDisposalMarkCompact st.contexts_disposed st.contexts_disposal_rate
      then (GCIdleTimeAction.FullGC, self) else (GCIdleTimeAction.Nothing, self) := by
  unfold Compute
  rw [if_pos ((static_cast_int_le_zero_iff idle).mpr (Or.inl h))]

/-- `Compute` on an idle time of `2 ^ 31` or more, whose conversion to `int` is out of
range: only the first branch is taken. -/
theorem compute_of_out_of_range (k : HeaderConstants) (flag : Bool)
    (self : GCIdleTimeHandler) (idle : ℚ) (st : GCIdleTimeHeapState) (h : 2 ^ 31 ≤ idle) :
    Compute k flag self idle st =
      if st.incremental_marking_stopped &&
          ShouldDoContextDisposalMarkCompact st.contexts_disposed st.contexts_disposal_rate
      then (GCIdleTimeAction.FullGC, self) else (GCIdleTimeAction.Nothing, self) := by
  unfold Compute
  rw [if_pos ((static_cast_int_le_zero_iff idle).mpr (Or.inr h))]

/-- `Compute` without usable idle time, below 1 or out of the range of `int`: only the first
branch is taken. -/
theorem compute_of_no_idle_time (k : HeaderConstants) (flag : Bool)
    (self : GCIdleTimeHandler) (idle : ℚ) (st : GCIdleTimeHeapState)
    (h : idle < 1 ∨ 2 ^ 31 ≤ idle) :
    Compute k flag self idle st =
      if st.incremental_marking_stopped &&
          ShouldDoContextDisposalMarkCompact st.contexts_disposed st.contexts_disposal_rate
      then (GCIdleTimeAction.FullGC, self) else (GCIdleTimeAction.Nothing, self) := by
  unfold Compute
  rw [if_pos ((static_cast_int_le_zero_iff idle).mpr h)]

/-- An idle time either gives no usable idle time or lies in the range from 1 to
`2 ^ 31`. -/
theorem idle_range_cases (idle : ℚ) :
    (idle < 1 ∨ 2 ^ 31 ≤ idle) ∨ (1 ≤ idle ∧ idle < 2 ^ 31) := by
  rcases lt_or_le idle 1 with h | h
  · exact Or.inl (Or.inl h)
  · rcases lt_or_le idle (2 ^ 31) with h2 | h2
    · exact Or.inr ⟨h, h2⟩
    · exact Or.inl (Or.inr h2)

/-- `Compute` on an idle time of at least 1 and below `2 ^ 31`: the first branch is
skipped. -/
theorem compute_of_one_le (k : HeaderConstants) (flag : Bool) (self : GCIdleTimeHandler)
    (idle : ℚ) (st : GCIdleTimeHeapState) (h : 1 ≤ idle) (hrange : idle < 2 ^ 31) :
    Compute k flag self idle st =
      if ShouldDoContextDisposalMarkCompact st.contexts_disposed st.contexts_disposal_rate
      then NothingOrDone k self idle
      else if !flag || st.incremental_marking_stopped then (GCIdleTimeAction.Done, self)
      else (GCIdleTimeAction.IncrementalStep, self) := by
  unfold Compute
  have hpos : ¬ static_cast_int idle ≤ 0 := by
    rw [static_cast_int_le_zero_iff]
    rintro (hc | hc)
    · exact absurd hc (not_lt.mpr h)
    · exact absurd hc (not_le.mpr hrange)
  rw [if_neg hpos]

/-! ## The claims -/

/-- C1: for every idle time `<= 0` and every heap state, `Compute` returns `FullGC` when
incremental marking is stopped and `ShouldDoContextDisposalMarkCompact` holds, and
`DoNothing` in every other case; `Compute(-5, state)` and `Compute(0, state)` return the
same action. -/
theorem compute_no_idle_time (k : HeaderConstants) (flag : Bool) (self : GCIdleTimeHandler)
    (idle : ℚ) (st : GCIdleTimeHeapState) (h : idle ≤ 0) :
    (st.incremental_marking_stopped = true →
        ShouldDoContextDisposalMarkCompact st.contexts_disposed st.contexts_disposal_rate = true →
        (Compute k flag self idle st).1 = GCIdleTimeAction.FullGC) ∧
      (¬ (st.incremental_marking_stopped = true ∧
          ShouldDoContextDisposalMarkCompact st.contexts_disposed st.contexts_disposal_rate
            = true) →
        (Compute k flag self idle st).1 = GCIdleTimeAction.Nothing) ∧
      (Compute k flag self (-5) st).1 = (Compute k flag self 0 st).1 := by
  have h1 : idle < 1 := lt_of_le_of_lt h one_pos
  refine ⟨?_, ?_, ?_⟩
  · intro hs hd
    rw [compute_of_lt_one k flag self idle st h1]
    simp [hs, hd]
  · intro hn
    rw [compute_of_lt_one k flag self idle st h1]
    simp only [Bool.and_eq_true]
    rw [if_neg hn]
  · rw [compute_of_lt_one k flag self (-5) st (by norm_num),
      compute_of_lt_one k flag self 0 st (by norm_num)]

/-- Witness of C1 at idle time `-5` and a state with a disposed context and marking
stopped. -/
theorem compute_no_idle_time_witness :
    (-5 : ℚ) ≤ 0 ∧
      (Compute exampleConstants true fresh (-5) disposalState).1 = GCIdleTimeAction.FullGC ∧
      (Compute exampleConstants true fresh (-5) markingState).1 = GCIdleTimeAction.Nothing := by
  have h : (-5 : ℚ) ≤ 0 := by norm_num
  refine ⟨h, ?_, ?_⟩
  · exact (compute_no_idle_time exampleConstants true fresh (-5) disposalState h).1 rfl
      (by norm_num [disposalState, ShouldDoContextDisposalMarkCompact,
        kHighContextDisposalRate])
  · exact (compute_no_idle_time exampleConstants true fresh (-5) markingState h).2.1
      (by simp [markingState])

/-- C2 as stated fails: with the disposal predicate false, marking not stopped and the flag
enabled, `Compute` returns `DoNothing`, not `IncrementalStep`, at the idle time 1/2, which
truncates to 0, and at the idle time 3000000000, whose conversion to `int` is out of
range. -/
theorem compute_half_ms_not_incremental_step :
    ShouldDoContextDisposalMarkCompact markingState.contexts_disposed
        markingState.contexts_disposal_rate = false ∧
      markingState.incremental_marking_stopped = false ∧
      ((0 : ℚ) < 1 / 2 ∧
        (Compute exampleConstants true fresh (1 / 2) markingState).1 =
          GCIdleTimeAction.Nothing ∧
        (Compute exampleConstants true fresh (1 / 2) markingState).1 ≠
          GCIdleTimeAction.IncrementalStep) ∧
      ((0 : ℚ) < 3000000000 ∧
        (Compute exampleConstants true fresh 3000000000 markingState).1 =
          GCIdleTimeAction.Nothing ∧
        (Compute exampleConstants true fresh 3000000000 markingState).1 ≠
          GCIdleTimeAction.IncrementalStep) := by
  have hc : (Compute exampleConstants true fresh (1 / 2) markingState).1 =
      GCIdleTimeAction.Nothing := by
    rw [compute_of_lt_one _ _ _ _ _ (by norm_num)]
    simp [markingState]
  have hbig : (Compute exampleConstants true fresh 3000000000 markingState).1 =
      GCIdleTimeAction.Nothing := by
    rw [compute_of_out_of_range _ _ _ _ _ (by norm_num)]
    simp [markingState]
  refine ⟨?_, rfl, ⟨by norm_num, hc, ?_⟩, ⟨by norm_num, hbig, ?_⟩⟩
  · simp [markingState, ShouldDoContextDisposalMarkCompact]
  · rw [hc]
    decide
  · rw [hbig]
    decide

/-- C2, amended: for every idle time that is at least 1 (positive after truncation to
`int`) and below `2 ^ 31` (so that the truncation fits in `int`), and every heap state with
the disposal predicate false and marking not stopped, with the incremental-marking flag
enabled, `Compute` returns `IncrementalStep`. -/
theorem compute_incremental_step (k : HeaderConstants) (self : GCIdleTimeHandler)
    (idle : ℚ) (st : GCIdleTimeHeapState) (hidle : 1 ≤ idle) (hrange : idle < 2 ^ 31)
    (hd : ShouldDoContextDisposalMarkCompact st.contexts_disposed st.contexts_disposal_rate
      = false)
    (hs : st.incremental_marking_stopped = false) :
    (Compute k true self idle st).1 = GCIdleTimeAction.IncrementalStep := by
  rw [compute_of_one_le k true self idle st hidle hrange]
  simp [hd, hs]

/-- Witness of the amended C2 at the idle times 1 and 2147483647.5, the two ends of the
range. -/
theorem compute_incremental_step_witness :
    (Compute exampleConstants true fresh 1 markingState).1 =
        GCIdleTimeAction.IncrementalStep ∧
      (Compute exampleConstants true fresh (4294967295 / 2) markingState).1 =
        GCIdleTimeAction.IncrementalStep :=
  ⟨compute_incremental_step exampleConstants fresh 1 markingState (le_refl 1) (by norm_num)
      (by simp [markingState, ShouldDoContextDisposalMarkCompact]) rfl,
    compute_incremental_step exampleConstants fresh (4294967295 / 2) markingState
      (by norm_num) (by norm_num)
      (by simp [markingState, ShouldDoContextDisposalMarkCompact]) rfl⟩

/-- C3 as stated fails: with marking stopped and the disposal predicate false, `Compute`
returns `DoNothing`, not `Done`, at the idle time 1/2, which truncates to 0, and at the idle
time 2147483648, whose conversion to `int` is out of range. -/
theorem compute_half_ms_not_done :
    stoppedState.incremental_marking_stopped = true ∧
      ShouldDoContextDisposalMarkCompact stoppedState.contexts_disposed
        stoppedState.contexts_disposal_rate = false ∧
      ((0 : ℚ) < 1 / 2 ∧
        (Compute exampleConstants true fresh (1 / 2) stoppedState).1 =
          GCIdleTimeAction.Nothing ∧
        (Compute exampleConstants true fresh (1 / 2) stoppedState).1 ≠
          GCIdleTimeAction.Done) ∧
      ((0 : ℚ) < 2147483648 ∧
        (Compute exampleConstants true fresh 2147483648 stoppedState).1 =
          GCIdleTimeAction.Nothing ∧
        (Compute exampleConstants true fresh 2147483648 stoppedState).1 ≠
          GCIdleTimeAction.Done) := by
  have hd : ShouldDoContextDisposalMarkCompact stoppedState.contexts_disposed
      stoppedState.contexts_disposal_rate = false := by
    simp [stoppedState, ShouldDoContextDisposalMarkCompact]
  have hc : (Compute exampleConstants true fresh (1 / 2) stoppedState).1 =
      GCIdleTimeAction.Nothing := by
    rw [compute_of_lt_one _ _ _ _ _ (by norm_num), hd]
    simp
  have hbig : (Compute exampleConstants true fresh 2147483648 stoppedState).1 =
      GCIdleTimeAction.Nothing := by
    rw [compute_of_out_of_range _ _ _ _ _ (by norm_num), hd]
    simp
  refine ⟨rfl, hd, ⟨by norm_num, hc, ?_⟩, ⟨by norm_num, hbig, ?_⟩⟩
  · rw [hc]
    decide
  · rw [hbig]
    decide

/-- C3, amended: for every idle time that is at least 1 (positive after truncation to
`int`) and below `2 ^ 31` (so that the truncation fits in `int`), and every heap state with
marking stopped and the disposal predicate false, `Compute` returns `Done`, whatever the
value of the incremental-marking flag. -/
theorem compute_done_when_stopped (k : HeaderConstants) (flag : Bool)
    (self : GCIdleTimeHandler) (idle : ℚ) (st : GCIdleTimeHeapState) (hidle : 1 ≤ idle)
    (hrange : idle < 2 ^ 31)
    (hs : st.incremental_marking_stopped = true)
    (hd : ShouldDoContextDisposalMarkCompact st.contexts_disposed st.contexts_disposal_rate
      = false) :
    (Compute k flag self idle st).1 = GCIdleTimeAction.Done := by
  rw [compute_of_one_le k flag self idle st hidle hrange]
  simp [hd, hs]

/-- Witness of the amended C3 at idle time 1 with the flag enabled and at idle time
2147483647 with the flag disabled. -/
theorem compute_done_when_stopped_witness :
    (Compute exampleConstants true fresh 1 stoppedState).1 = GCIdleTimeAction.Done ∧
      (Compute exampleConstants false fresh 2147483647 stoppedState).1 =
        GCIdleTimeAction.Done :=
  ⟨compute_done_when_stopped exampleConstants true fresh 1 stoppedState (le_refl 1)
      (by norm_num) rfl (by simp [stoppedState, ShouldDoContextDisposalMarkCompact]),
    compute_done_when_stopped exampleConstants false fresh 2147483647 stoppedState
      (by norm_num) (by norm_num) rfl
      (by simp [stoppedState, ShouldDoContextDisposalMarkCompact])⟩

theorem disposalState_shouldDo :
    ShouldDoContextDisposalMarkCompact disposalState.contexts_disposed
      disposalState.contexts_disposal_rate = true := by
  norm_num [disposalState, ShouldDoContextDisposalMarkCompact, kHighContextDisposalRate]

/-- `NothingOrDone` below the background threshold: compare, then increment. -/
theorem nothingOrDone_of_lt (k : HeaderConstants) (self : GCIdleTimeHandler) (idle : ℚ)
    (h : idle < k.kMinBackgroundIdleTime) :
    NothingOrDone k self idle =
      if self.idle_times_which_made_no_progress_ ≥ k.kMaxNoProgressIdleTimes then
        (GCIdleTimeAction.Done, self)
      else (GCIdleTimeAction.Nothing, ⟨self.idle_times_which_made_no_progress_ + 1⟩) := by
  unfold NothingOrDone
  rw [if_neg (not_le.mpr h)]

/-- `NothingOrDone` at or above the background threshold leaves the selector alone. -/
theorem nothingOrDone_of_ge (k : HeaderConstants) (self : GCIdleTimeHandler) (idle : ℚ)
    (h : idle ≥ k.kMinBackgroundIdleTime) :
    NothingOrDone k self idle = (GCIdleTimeAction.Nothing, self) := by
  unfold NothingOrDone
  rw [if_pos h]

/-- C4 as stated fails: with a disposed context and marking stopped, `Compute` returns
`FullGC`, not `DoNothing`, at the idle time 3000000000, which is above the threshold 900
and whose conversion to `int` is out of range; and, the threshold being a parameter, at
the idle time 0 when `kMinBackgroundIdleTime = 0`. -/
theorem compute_background_idle_full_gc :
    ShouldDoContextDisposalMarkCompact disposalState.contexts_disposed
        disposalState.contexts_disposal_rate = true ∧
      ((3000000000 : ℚ) ≥ exampleConstants.kMinBackgroundIdleTime ∧
        (Compute exampleConstants true fresh 3000000000 disposalState).1 =
          GCIdleTimeAction.FullGC ∧
        (Compute exampleConstants true fresh 3000000000 disposalState).1 ≠
          GCIdleTimeAction.Nothing) ∧
      ((0 : ℚ) ≥ zeroBackgroundConstants.kMinBackgroundIdleTime ∧
        (Compute zeroBackgroundConstants true fresh 0 disposalState).1 =
          GCIdleTimeAction.FullGC ∧
        (Compute zeroBackgroundConstants true fresh 0 disposalState).1 ≠
          GCIdleTimeAction.Nothing) := by
  have hbig : (Compute exampleConstants true fresh 3000000000 disposalState).1 =
      GCIdleTimeAction.FullGC := by
    rw [compute_of_out_of_range _ _ _ _ _ (by norm_num), disposalState_shouldDo]
    simp [disposalState]
  have hc : (Compute zeroBackgroundConstants true fresh 0 disposalState).1 =
      GCIdleTimeAction.FullGC := by
    rw [compute_of_lt_one _ _ _ _ _ (by norm_num), disposalState_shouldDo]
    simp [disposalState]
  refine ⟨disposalState_shouldDo, ⟨?_, hbig, ?_⟩, ⟨?_, hc, ?_⟩⟩
  · norm_num [exampleConstants]
  · rw [hbig]
    decide
  · simp [zeroBackgroundConstants]
  · rw [hc]
    decide

/-- C4, amended: for every heap state for which the disposal predicate holds and every idle
time that is at least `kMinBackgroundIdleTime`, at least 1 (positive after truncation to
`int`) and below `2 ^ 31` (so that the truncation fits in `int`), `Compute` returns
`DoNothing` and leaves the no-progress counter equal to its value before the call, whatever
that value is. -/
theorem compute_background_idle (k : HeaderConstants) (flag : Bool)
    (self : GCIdleTimeHandler) (idle : ℚ) (st : GCIdleTimeHeapState)
    (hd : ShouldDoContextDisposalMarkCompact st.contexts_disposed st.contexts_disposal_rate
      = true)
    (hmin : idle ≥ k.kMinBackgroundIdleTime) (hidle : 1 ≤ idle) (hrange : idle < 2 ^ 31) :
    (Compute k flag self idle st).1 = GCIdleTimeAction.Nothing ∧
      (Compute k flag self idle st).2.idle_times_which_made_no_progress_ =
        self.idle_times_which_made_no_progress_ := by
  rw [compute_of_one_le k flag self idle st hidle hrange, if_pos hd,
    nothingOrDone_of_ge k self idle hmin]
  exact ⟨rfl, rfl⟩

/-- Witness of the amended C4 with counter 3: at the idle time 900, the threshold itself,
and at the idle time 2147483647. -/
theorem compute_background_idle_witness :
    ((Compute exampleConstants true ⟨3⟩ 900 disposalState).1 = GCIdleTimeAction.Nothing ∧
      (Compute exampleConstants true ⟨3⟩ 900 disposalState).2.idle_times_which_made_no_progress_
        = 3) ∧
    ((Compute exampleConstants true ⟨3⟩ 2147483647 disposalState).1 =
        GCIdleTimeAction.Nothing ∧
      (Compute exampleConstants true ⟨3⟩ 2147483647
        disposalState).2.idle_times_which_made_no_progress_ = 3) :=
  ⟨compute_background_idle exampleConstants true ⟨3⟩ 900 disposalState disposalState_shouldDo
      (by norm_num [exampleConstants]) (by norm_num) (by norm_num),
    compute_background_idle exampleConstants true ⟨3⟩ 2147483647 disposalState
      disposalState_shouldDo (by norm_num [exampleConstants]) (by norm_num) (by norm_num)⟩

/-- One short disposal call: the selector's counter moves one step toward the maximum. -/
theorem compute_short_disposal_call (k : HeaderConstants) (flag : Bool)
    (self : GCIdleTimeHandler) (c : ℚ × GCIdleTimeHeapState) (hc : IsShortDisposalCall k c) :
    Compute k flag self c.1 c.2 =
      if self.idle_times_which_made_no_progress_ ≥ k.kMaxNoProgressIdleTimes then
        (GCIdleTimeAction.Done, self)
      else (GCIdleTimeAction.Nothing, ⟨self.idle_times_which_made_no_progress_ + 1⟩) := by
  obtain ⟨hd, h1, hrange, hlt⟩ := hc
  rw [compute_of_one_le k flag self c.1 c.2 h1 hrange, if_pos hd,
    nothingOrDone_of_lt k self c.1 hlt]

/-- The counter after a run of short disposal calls. -/
theorem computeAll_short_disposal_calls (k : HeaderConstants) (flag : Bool)
    (calls : List (ℚ × GCIdleTimeHeapState)) :
    ∀ self : GCIdleTimeHandler, (∀ c ∈ calls, IsShortDisposalCall k c) →
      self.idle_times_which_made_no_progress_ ≤ k.kMaxNoProgressIdleTimes →
      (computeAll k flag self calls).idle_times_which_made_no_progress_ =
        min (self.idle_times_which_made_no_progress_ + calls.length)
          k.kMaxNoProgressIdleTimes := by
  induction calls with
  | nil =>
    intro self _ hle
    simp [computeAll, hle]
  | cons c rest ih =>
    intro self hall hle
    obtain ⟨idle, st⟩ := c
    have hc : IsShortDisposalCall k (idle, st) := hall _ (List.mem_cons_self _ _)
    have hrest : ∀ c ∈ rest, IsShortDisposalCall k c :=
      fun c hmem => hall c (List.mem_cons_of_mem _ hmem)
    have hstep := compute_short_disposal_call k flag self (idle, st) hc
    simp only [computeAll]
    simp only at hstep
    rw [hstep]
    by_cases hge : self.idle_times_which_made_no_progress_ ≥ k.kMaxNoProgressIdleTimes
    · rw [if_pos hge, ih self hrest hle]
      simp only [List.length_cons, Nat.cast_add, Nat.cast_one]
      omega
    · rw [if_neg hge, ih _ hrest (by simp only; omega)]
      simp only [List.length_cons, Nat.cast_add, Nat.cast_one]
      omega

/-- C5 as stated fails: on a fresh selector, with the disposal predicate true, the counter
0 is below the maximum 10, yet `Compute` returns `FullGC` and leaves the counter at 0: at
the positive idle time 1/2, below the threshold 900, which truncates to 0; and, the
threshold being a parameter, at the idle time 3000000000 below a threshold of 4000000000,
whose conversion to `int` is out of range. -/
theorem compute_half_ms_disposal_no_increment :
    ShouldDoContextDisposalMarkCompact disposalState.contexts_disposed
        disposalState.contexts_disposal_rate = true ∧
      ((0 : ℚ) < 1 / 2 ∧ (1 / 2 : ℚ) < exampleConstants.kMinBackgroundIdleTime ∧
        fresh.idle_times_which_made_no_progress_ < exampleConstants.kMaxNoProgressIdleTimes ∧
        Compute exampleConstants true fresh (1 / 2) disposalState =
          (GCIdleTimeAction.FullGC, ⟨0⟩)) ∧
      ((0 : ℚ) < 3000000000 ∧
        (3000000000 : ℚ) < distantBackgroundConstants.kMinBackgroundIdleTime ∧
        fresh.idle_times_which_made_no_progress_ <
          distantBackgroundConstants.kMaxNoProgressIdleTimes ∧
        Compute distantBackgroundConstants true fresh 3000000000 disposalState =
          (GCIdleTimeAction.FullGC, ⟨0⟩)) := by
  refine ⟨disposalState_shouldDo,
    ⟨by norm_num, by norm_num [exampleConstants], by decide, ?_⟩,
    ⟨by norm_num, by norm_num [distantBackgroundConstants], by decide, ?_⟩⟩
  · rw [compute_of_lt_one _ _ _ _ _ (by norm_num), disposalState_shouldDo]
    simp [disposalState, fresh]
  · rw [compute_of_out_of_range _ _ _ _ _ (by norm_num), disposalState_shouldDo]
    simp [disposalState, fresh]

/-- C5, amended: starting from a freshly constructed selector and calling `Compute`
repeatedly with heap states for which the disposal predicate holds and idle times that are
at least 1 (positive after truncation to `int`), below `2 ^ 31` (so that the truncation
fits in `int`) and below `kMinBackgroundIdleTime`: every call
made while the counter is below `kMaxNoProgressIdleTimes` returns `DoNothing` and
increases the counter by exactly 1, and every call made once the counter has reached
`kMaxNoProgressIdleTimes` returns `Done`.  Moreover, when the maximum is non-negative, the
counter after `n` such calls is the smaller of `n` and the maximum. -/
theorem compute_repeated_short_disposal_calls (k : HeaderConstants) (flag : Bool)
    (calls : List (ℚ × GCIdleTimeHeapState)) (idle : ℚ) (st : GCIdleTimeHeapState)
    (hcalls : ∀ c ∈ calls, IsShortDisposalCall k c)
    (hnext : IsShortDisposalCall k (idle, st)) :
    ((computeAll k flag fresh calls).idle_times_which_made_no_progress_
          < k.kMaxNoProgressIdleTimes →
        Compute k flag (computeAll k flag fresh calls) idle st =
          (GCIdleTimeAction.Nothing,
            ⟨(computeAll k flag fresh calls).idle_times_which_made_no_progress_ + 1⟩)) ∧
      ((computeAll k flag fresh calls).idle_times_which_made_no_progress_
          ≥ k.kMaxNoProgressIdleTimes →
        (Compute k flag (computeAll k flag fresh calls) idle st).1 = GCIdleTimeAction.Done) ∧
      (0 ≤ k.kMaxNoProgressIdleTimes →
        (computeAll k flag fresh calls).idle_times_which_made_no_progress_ =
          min (calls.length : Int) k.kMaxNoProgressIdleTimes) := by
  have hstep := compute_short_disposal_call k flag (computeAll k flag fresh calls) (idle, st)
    hnext
  simp only at hstep
  refine ⟨?_, ?_, ?_⟩
  · intro hlt
    rw [hstep, if_neg (not_le.mpr hlt)]
  · intro hge
    rw [hstep, if_pos hge]
  · intro hmax
    have h := computeAll_short_disposal_calls k flag calls fresh hcalls hmax
    rw [h]
    simp [fresh]

theorem isShortDisposalCall_example (idle : ℚ) (h1 : 1 ≤ idle) (h2 : idle < 900) :
    IsShortDisposalCall exampleConstants (idle, disposalState) :=
  ⟨disposalState_shouldDo, h1, lt_trans h2 (by norm_num), by
    simpa [exampleConstants] using h2⟩

/-- Witness of the amended C5 with the maximum 10.  After two calls without progress the
counter is 2 and the third call returns `DoNothing` and moves it to 3; after ten such
calls the counter is 10 and the eleventh call returns `Done`. -/
theorem compute_repeated_short_disposal_calls_witness :
    ((computeAll exampleConstants true fresh
          [(1, disposalState), (2, disposalState)]).idle_times_which_made_no_progress_ = 2 ∧
        Compute exampleConstants true
            (computeAll exampleConstants true fresh [(1, disposalState), (2, disposalState)])
            3 disposalState =
          (GCIdleTimeAction.Nothing, ⟨3⟩)) ∧
      ((computeAll exampleConstants true fresh
          (List.replicate 10 (1, disposalState))).idle_times_which_made_no_progress_ = 10 ∧
        (Compute exampleConstants true
            (computeAll exampleConstants true fresh (List.replicate 10 (1, disposalState)))
            1 disposalState).1 = GCIdleTimeAction.Done) := by
  have hshort : ∀ idle : ℚ, 1 ≤ idle → idle < 900 →
      IsShortDisposalCall exampleConstants (idle, disposalState) :=
    isShortDisposalCall_example
  have htwo : ∀ c ∈ [((1 : ℚ), disposalState), ((2 : ℚ), disposalState)],
      IsShortDisposalCall exampleConstants c := by
    intro c hc
    simp only [List.mem_cons, List.mem_singleton, List.not_mem_nil, or_false] at hc
    rcases hc with rfl | rfl
    · exact hshort 1 (by norm_num) (by norm_num)
    · exact hshort 2 (by norm_num) (by norm_num)
  have hten : ∀ c ∈ List.replicate 10 ((1 : ℚ), disposalState),
      IsShortDisposalCall exampleConstants c := by
    intro c hc
    rw [List.eq_of_mem_replicate hc]
    exact hshort 1 (by norm_num) (by norm_num)
  have hA := compute_repeated_short_disposal_calls exampleConstants true
    [(1, disposalState), (2, disposalState)] 3 disposalState htwo
    (hshort 3 (by norm_num) (by norm_num))
  have hB := compute_repeated_short_disposal_calls exampleConstants true
    (List.replicate 10 (1, disposalState)) 1 disposalState hten
    (hshort 1 (by norm_num) (by norm_num))
  have hcA : (computeAll exampleConstants true fresh
      [(1, disposalState), (2, disposalState)]).idle_times_which_made_no_progress_ = 2 := by
    rw [hA.2.2 (by decide)]
    decide
  have hcB : (computeAll exampleConstants true fresh
      (List.replicate 10 (1, disposalState))).idle_times_which_made_no_progress_ = 10 := by
    rw [hB.2.2 (by decide)]
    decide
  refine ⟨⟨hcA, ?_⟩, ⟨hcB, ?_⟩⟩
  · rw [hA.1 (by rw [hcA]; decide), hcA]
    rfl
  · exact hB.2.1 (by rw [hcB]; decide)

/-- C6 as stated fails: with maximum 10 and counter 9, a call below the threshold returns
`DoNothing` (the claim: `Done`, since 9 + 1 has reached 10); with counter 10 it returns
`Done` and leaves the counter at 10 (the claim: 11). -/
theorem nothingOrDone_compares_before_increment :
    (1 : ℚ) < exampleConstants.kMinBackgroundIdleTime ∧
      (9 : Int) + 1 ≥ exampleConstants.kMaxNoProgressIdleTimes ∧
      NothingOrDone exampleConstants ⟨9⟩ 1 = (GCIdleTimeAction.Nothing, ⟨10⟩) ∧
      NothingOrDone exampleConstants ⟨10⟩ 1 = (GCIdleTimeAction.Done, ⟨10⟩) := by
  have h : (1 : ℚ) < exampleConstants.kMinBackgroundIdleTime := by
    norm_num [exampleConstants]
  refine ⟨h, by decide, ?_, ?_⟩
  · rw [nothingOrDone_of_lt _ _ _ h]
    decide
  · rw [nothingOrDone_of_lt _ _ _ h]
    decide

/-- C6, amended: for every call `NothingOrDone(idle_time_ms)` with the idle time below
`kMinBackgroundIdleTime` and every counter value `c` before the call: if
`c >= kMaxNoProgressIdleTimes` the call returns `Done` and leaves the counter at `c`;
otherwise it returns `DoNothing` and the counter after the call is `c + 1`.  The counter is
compared with the maximum first and incremented only when it is below it. -/
theorem nothingOrDone_below_threshold (k : HeaderConstants) (c : Int) (idle : ℚ)
    (h : idle < k.kMinBackgroundIdleTime) :
    (c ≥ k.kMaxNoProgressIdleTimes →
        NothingOrDone k ⟨c⟩ idle = (GCIdleTimeAction.Done, ⟨c⟩)) ∧
      (c < k.kMaxNoProgressIdleTimes →
        NothingOrDone k ⟨c⟩ idle = (GCIdleTimeAction.Nothing, ⟨c + 1⟩)) := by
  rw [nothingOrDone_of_lt k ⟨c⟩ idle h]
  constructor
  · intro hge
    rw [if_pos hge]
  · intro hlt
    rw [if_neg (not_le.mpr hlt)]

/-- Witness of the amended C6 at counter 9 and maximum 10. -/
theorem nothingOrDone_below_threshold_witness :
    NothingOrDone exampleConstants ⟨9⟩ 1 = (GCIdleTimeAction.Nothing, ⟨9 + 1⟩) :=
  (nothingOrDone_below_threshold exampleConstants 9 1 (by norm_num [exampleConstants])).2
    (by decide)

/-- C7: `ShouldDoContextDisposalMarkCompact(n, r)` is true if and only if `n > 0` and
`0 < r < 100`; in particular it is false whenever `r = 0`, whenever `r >= 100` and
whenever `n = 0`. -/
theorem shouldDoContextDisposalMarkCompact_spec (n : Int) (r : ℚ) :
    (ShouldDoContextDisposalMarkCompact n r = true ↔ (n > 0 ∧ 0 < r ∧ r < 100)) ∧
      ShouldDoContextDisposalMarkCompact n 0 = false ∧
      (r ≥ 100 → ShouldDoContextDisposalMarkCompact n r = false) ∧
      ShouldDoContextDisposalMarkCompact 0 r = false := by
  refine ⟨shouldDoContextDisposalMarkCompact_iff n r, ?_, ?_, ?_⟩
  · simp [ShouldDoContextDisposalMarkCompact]
  · intro hr
    simp only [ShouldDoContextDisposalMarkCompact, kHighContextDisposalRate]
    simp [not_lt.mpr hr]
  · simp [ShouldDoContextDisposalMarkCompact]

/-- Witness of C7 at one disposed context and the rate 100. -/
theorem shouldDoContextDisposalMarkCompact_spec_witness :
    ShouldDoContextDisposalMarkCompact 1 100 = false :=
  (shouldDoContextDisposalMarkCompact_spec 1 100).2.2.1 (le_refl 100)

/-- C8: for every size and every speed greater than 0, both time estimates are at most
1000, and each equals `min(floor(size / speed), 1000)`. -/
theorem estimate_times_bounded (k : HeaderConstants) (size speed : Nat) (h : 0 < speed) :
    EstimateMarkCompactTime k size speed ≤ 1000 ∧
      EstimateFinalIncrementalMarkCompactTime k size speed ≤ 1000 ∧
      EstimateMarkCompactTime k size speed = min (size / speed) 1000 ∧
      EstimateFinalIncrementalMarkCompactTime k size speed = min (size / speed) 1000 := by
  have hne : speed ≠ 0 := Nat.pos_iff_ne_zero.mp h
  have hmin : ∀ a b : Nat, Min a b = min a b := by
    intro a b
    unfold Min
    split <;> omega
  have h1 : EstimateMarkCompactTime k size speed = min (size / speed) 1000 := by
    simp only [EstimateMarkCompactTime, if_neg hne, hmin, kMaxMarkCompactTimeInMs]
  have h2 : EstimateFinalIncrementalMarkCompactTime k size speed = min (size / speed) 1000 := by
    simp only [EstimateFinalIncrementalMarkCompactTime, if_neg hne, hmin,
      kMaxFinalIncrementalMarkCompactTimeInMs]
  refine ⟨?_, ?_, h1, h2⟩
  · rw [h1]
    exact Nat.min_le_right _ _
  · rw [h2]
    exact Nat.min_le_right _ _

/-- Witness of C8 at the largest 64-bit size and speed 1. -/
theorem estimate_times_bounded_witness :
    EstimateMarkCompactTime exampleConstants (2 ^ 64 - 1) 1 ≤ 1000 ∧
      EstimateFinalIncrementalMarkCompactTime exampleConstants (2 ^ 64 - 1) 1 ≤ 1000 :=
  ⟨(estimate_times_bounded exampleConstants (2 ^ 64 - 1) 1 (by decide)).1,
    (estimate_times_bounded exampleConstants (2 ^ 64 - 1) 1 (by decide)).2.1⟩

/-! ## Rounding to 53 significant bits -/

theorem excessBits_le (fuel : Nat) : ∀ n j : Nat, n < 2 ^ (53 + j) → excessBits fuel n ≤ j := by
  induction fuel with
  | zero =>
    intro n j _
    simp [excessBits]
  | succ f ih =>
    intro n j hn
    unfold excessBits
    split
    · exact Nat.zero_le _
    · rename_i hge
      cases j with
      | zero => exact absurd hn hge
      | succ i =>
        have hhalf : n / 2 < 2 ^ (53 + i) := by
          have hpow : 2 ^ (53 + (i + 1)) = 2 ^ (53 + i) * 2 := by
            rw [← Nat.add_assoc, Nat.pow_succ]
          rw [hpow] at hn
          omega
        have := ih (n / 2) i hhalf
        omega

theorem excessBits_eq_zero (n : Nat) (h : n < 2 ^ 53) : excessBits n n = 0 :=
  Nat.le_zero.mp (excessBits_le n n 0 h)

/-- Values below `2 ^ 53` are representable: rounding leaves them unchanged. -/
theorem roundSig53_of_lt (n : Nat) (h : n < 2 ^ 53) : roundSig53 n = n := by
  unfold roundSig53
  simp [excessBits_eq_zero n h, Nat.mod_one]

/-- Rounding moves a value by at most half a unit in the last place, and never below the
value with its excess bits cleared. -/
theorem roundSig53_bounds (n : Nat) :
    n / 2 ^ excessBits n n * 2 ^ excessBits n n ≤ roundSig53 n ∧
      2 * roundSig53 n ≤ 2 * n + 2 ^ excessBits n n := by
  simp only [roundSig53]
  have hdm := Nat.div_add_mod n (2 ^ excessBits n n)
  generalize 2 ^ excessBits n n = E at hdm ⊢
  generalize n / E = q at hdm ⊢
  generalize n % E = r at hdm ⊢
  have hqE : E * q = q * E := Nat.mul_comm _ _
  split
  · rename_i hc
    have hexp : (q + 1) * E = q * E + E := by ring
    rw [hexp]
    constructor
    · omega
    · rcases hc with hc | ⟨hc, _⟩ <;> omega
  · constructor
    · exact le_refl _
    · omega

/-- On step sizes up to `2 ^ 50` the scaling by the double 0.9 followed by truncation is the
exact `floor(0.9 * p)`. -/
theorem scaleByConservativeTimeRatio_eq (p : Nat) (hp : p ≤ 2 ^ 50) :
    scaleByConservativeTimeRatio p = 9 * p / 10 := by
  unfold scaleByConservativeTimeRatio
  rw [roundSig53_of_lt p (by omega)]
  simp only [kConservativeTimeRatioNumerator]
  have hN : p * 8106479329266893 < 2 ^ (53 + 50) := by
    norm_num
    omega
  have he := excessBits_le (p * 8106479329266893) (p * 8106479329266893) 50 hN
  obtain ⟨hlo, hhi⟩ := roundSig53_bounds (p * 8106479329266893)
  generalize roundSig53 (p * 8106479329266893) = R at hlo hhi ⊢
  generalize excessBits (p * 8106479329266893) (p * 8106479329266893) = e at he hlo hhi
  have hE : 2 ^ e ≤ 2 ^ 50 := Nat.pow_le_pow_right (by decide) he
  have hsplit : 2 ^ 53 = 2 ^ (53 - e) * 2 ^ e := by
    rw [← Nat.pow_add]
    congr 1
    omega
  have hEpos : 0 < 2 ^ e := by positivity
  -- the lower bound: the truncated product is a multiple of the rounding unit
  have hlow : 9 * p / 10 * 2 ^ 53 ≤ R := by
    have h1 : 9 * p / 10 * 2 ^ 53 ≤ p * 8106479329266893 := by
      norm_num
      omega
    have h2 : 9 * p / 10 * 2 ^ (53 - e) ≤ p * 8106479329266893 / 2 ^ e := by
      rw [Nat.le_div_iff_mul_le hEpos, Nat.mul_assoc, ← hsplit]
      exact h1
    calc 9 * p / 10 * 2 ^ 53 = 9 * p / 10 * 2 ^ (53 - e) * 2 ^ e := by
          rw [Nat.mul_assoc, ← hsplit]
      _ ≤ p * 8106479329266893 / 2 ^ e * 2 ^ e := Nat.mul_le_mul_right _ h2
      _ ≤ R := hlo
  have hupp : R < (9 * p / 10 + 1) * 2 ^ 53 := by
    norm_num at hE hp ⊢
    omega
  exact Nat.div_eq_of_lt_le hlow hupp

/-- `EstimateMarkingStepSize` when the product of a non-zero speed and the idle time fits
in `size_t`: the overflow check passes and the product is clamped or scaled. -/
theorem estimateMarkingStepSize_of_fits (k : HeaderConstants) (idle speed : Nat)
    (hs : 0 < speed) (hfit : speed * idle < 2 ^ k.sizeBits) :
    EstimateMarkingStepSize k idle speed =
      if speed * idle > k.kMaximumMarkingStepSize then k.kMaximumMarkingStepSize
      else scaleByConservativeTimeRatio (speed * idle) := by
  have hne : speed ≠ 0 := Nat.pos_iff_ne_zero.mp hs
  simp only [EstimateMarkingStepSize, if_neg hne, Nat.mod_eq_of_lt hfit,
    Nat.mul_div_cancel_left idle hs, ne_eq, not_true_eq_false, if_false]

/-- C9 as stated fails.  With a maximum step size of 700 MB, speed 1 and idle time
734003201 the product exceeds the maximum and the result is the maximum itself, not
`floor(0.9 * maximum)`.  With a maximum of `2 ^ 63`, speed 1 and idle time
1250999896491811 the product of the two doubles rounds up and the result is one more than
`floor(0.9 * p)`. -/
theorem estimateMarkingStepSize_not_clamp_then_scale :
    (1 * 734003201 < 2 ^ exampleConstants.sizeBits ∧
        EstimateMarkingStepSize exampleConstants 734003201 1 = 734003200 ∧
        9 * min (1 * 734003201) exampleConstants.kMaximumMarkingStepSize / 10 = 660602880) ∧
      (1 * 1250999896491811 < 2 ^ largeStepConstants.sizeBits ∧
        EstimateMarkingStepSize largeStepConstants 1250999896491811 1 = 1125899906842630 ∧
        9 * min (1 * 1250999896491811) largeStepConstants.kMaximumMarkingStepSize / 10 =
          1125899906842629) := by
  decide

/-- C9, amended: for every marking speed and idle time greater than 0 whose product `p`
does not overflow `size_t`: when `p` is greater than `kMaximumMarkingStepSize` the result
is `kMaximumMarkingStepSize` itself, unscaled; when `p` is at most
`kMaximumMarkingStepSize` and at most `2 ^ 50` the result is `floor(0.9 * p)`. -/
theorem estimateMarkingStepSize_no_overflow (k : HeaderConstants) (idle speed : Nat)
    (hs : 0 < speed) (_hidle : 0 < idle) (hfit : speed * idle < 2 ^ k.sizeBits) :
    (k.kMaximumMarkingStepSize < speed * idle →
        EstimateMarkingStepSize k idle speed = k.kMaximumMarkingStepSize) ∧
      (speed * idle ≤ k.kMaximumMarkingStepSize → speed * idle ≤ 2 ^ 50 →
        EstimateMarkingStepSize k idle speed = 9 * (speed * idle) / 10) := by
  rw [estimateMarkingStepSize_of_fits k idle speed hs hfit]
  constructor
  · intro hgt
    rw [if_pos hgt]
  · intro hle h50
    rw [if_neg (not_lt.mpr hle), scaleByConservativeTimeRatio_eq _ h50]

/-- Witness of the amended C9: speed 102400 bytes/ms with 16 ms of idle time gives
`floor(0.9 * 1638400)`, and with 7169 ms the maximum of 700 MB. -/
theorem estimateMarkingStepSize_no_overflow_witness :
    EstimateMarkingStepSize exampleConstants 16 102400 = 1474560 ∧
      EstimateMarkingStepSize exampleConstants 7169 102400 = 734003200 :=
  ⟨(estimateMarkingStepSize_no_overflow exampleConstants 16 102400 (by decide) (by decide)
      (by decide)).2 (by decide) (by decide),
    (estimateMarkingStepSize_no_overflow exampleConstants 7169 102400 (by decide) (by decide)
      (by decide)).1 (by decide)⟩

/-- C10: for every idle time greater than 0 and every marking speed (replaced by
`kInitialConservativeMarkingSpeed` when it is 0), if the mathematical product is at least
`2 ^ sizeBits`, then the wrapped product fails the round-trip division check and
`EstimateMarkingStepSize` returns exactly `kMaximumMarkingStepSize`. -/
theorem estimateMarkingStepSize_overflow (k : HeaderConstants) (idle speed : Nat)
    (_hidle : 0 < idle)
    (hov : 2 ^ k.sizeBits ≤
      (if speed = 0 then k.kInitialConservativeMarkingSpeed else speed) * idle) :
    ((if speed = 0 then k.kInitialConservativeMarkingSpeed else speed) * idle
          % 2 ^ k.sizeBits) / (if speed = 0 then k.kInitialConservativeMarkingSpeed else speed)
        ≠ idle ∧
      EstimateMarkingStepSize k idle speed = k.kMaximumMarkingStepSize := by
  generalize hsdef : (if speed = 0 then k.kInitialConservativeMarkingSpeed else speed) = s
    at hov
  have hpos : 0 < 2 ^ k.sizeBits := by positivity
  have hmod : s * idle % 2 ^ k.sizeBits < s * idle :=
    lt_of_lt_of_le (Nat.mod_lt _ hpos) hov
  have hdiv : s * idle % 2 ^ k.sizeBits / s < idle := Nat.div_lt_of_lt_mul hmod
  have hne : s * idle % 2 ^ k.sizeBits / s ≠ idle := Nat.ne_of_lt hdiv
  refine ⟨hne, ?_⟩
  simp only [EstimateMarkingStepSize, hsdef]
  rw [if_pos hne]

/-- Witness of C10 on a 64-bit target: an idle time of `2 ^ 63` overflows with speed 2, and
with the unknown speed 0 replaced by the default. -/
theorem estimateMarkingStepSize_overflow_witness :
    EstimateMarkingStepSize exampleConstants (2 ^ 63) 2 = 734003200 ∧
      EstimateMarkingStepSize exampleConstants (2 ^ 63) 0 = 734003200 :=
  ⟨(estimateMarkingStepSize_overflow exampleConstants (2 ^ 63) 2 (by decide) (by decide)).2,
    (estimateMarkingStepSize_overflow exampleConstants (2 ^ 63) 0 (by decide) (by decide)).2⟩

/-! ## Substitution of the default speeds -/

/-- C11: for every idle time greater than 0, `EstimateMarkingStepSize(idle_time_ms, 0)`
equals `EstimateMarkingStepSize(idle_time_ms, kInitialConservativeMarkingSpeed)`. -/
theorem estimateMarkingStepSize_zero_speed (k : HeaderConstants) (idle : Nat)
    (_hidle : 0 < idle) :
    EstimateMarkingStepSize k idle 0 =
      EstimateMarkingStepSize k idle k.kInitialConservativeMarkingSpeed := by
  by_cases h : k.kInitialConservativeMarkingSpeed = 0
  · rw [h]
  · simp only [EstimateMarkingStepSize, if_true, if_neg h]

/-- Witness of C11 at 16 ms of idle time: both calls give `floor(0.9 * 1638400)`. -/
theorem estimateMarkingStepSize_zero_speed_witness :
    EstimateMarkingStepSize exampleConstants 16 0 =
        EstimateMarkingStepSize exampleConstants 16
          exampleConstants.kInitialConservativeMarkingSpeed ∧
      EstimateMarkingStepSize exampleConstants 16 0 = 1474560 :=
  ⟨estimateMarkingStepSize_zero_speed exampleConstants 16 (by decide), by decide⟩

/-- C12: provided the default speed constants are non-zero, no estimator divides by zero:
a speed of 0 gives the same time estimates as the corresponding default speed, and in
`EstimateMarkingStepSize`, `EstimateMarkCompactTime` and
`EstimateFinalIncrementalMarkCompactTime` the division is defined on every input (the
partial versions return the value of the total ones). -/
theorem estimators_never_divide_by_zero (k : HeaderConstants)
    (h1 : k.kInitialConservativeMarkingSpeed ≠ 0)
    (h2 : k.kInitialConservativeMarkCompactSpeed ≠ 0)
    (h3 : k.kInitialConservativeFinalIncrementalMarkCompactSpeed ≠ 0) :
    (∀ size, EstimateMarkCompactTime k size 0 =
        EstimateMarkCompactTime k size k.kInitialConservativeMarkCompactSpeed) ∧
      (∀ size, EstimateFinalIncrementalMarkCompactTime k size 0 =
        EstimateFinalIncrementalMarkCompactTime k size
          k.kInitialConservativeFinalIncrementalMarkCompactSpeed) ∧
      (∀ idle speed, EstimateMarkingStepSizeChecked k idle speed =
        some (EstimateMarkingStepSize k idle speed)) ∧
      (∀ size speed, EstimateMarkCompactTimeChecked k size speed =
        some (EstimateMarkCompactTime k size speed)) ∧
      (∀ size speed, EstimateFinalIncrementalMarkCompactTimeChecked k size speed =
        some (EstimateFinalIncrementalMarkCompactTime k size speed)) := by
  refine ⟨?_, ?_, ?_, ?_, ?_⟩
  · intro size
    simp only [EstimateMarkCompactTime, if_true, if_neg h2]
  · intro size
    simp only [EstimateFinalIncrementalMarkCompactTime, if_true, if_neg h3]
  · intro idle speed
    have hne : (if speed = 0 then k.kInitialConservativeMarkingSpeed else speed) ≠ 0 := by
      split
      · exact h1
      · assumption
    simp only [EstimateMarkingStepSizeChecked, EstimateMarkingStepSize, sizeDiv, if_neg hne]
    generalize (if speed = 0 then k.kInitialConservativeMarkingSpeed else speed) = s
    split_ifs <;> rfl
  · intro size speed
    have hne : (if speed = 0 then k.kInitialConservativeMarkCompactSpeed else speed) ≠ 0 := by
      split
      · exact h2
      · assumption
    simp only [EstimateMarkCompactTimeChecked, EstimateMarkCompactTime, sizeDiv, if_neg hne]
  · intro size speed
    have hne : (if speed = 0 then k.kInitialConservativeFinalIncrementalMarkCompactSpeed
        else speed) ≠ 0 := by
      split
      · exact h3
      · assumption
    simp only [EstimateFinalIncrementalMarkCompactTimeChecked,
      EstimateFinalIncrementalMarkCompactTime, sizeDiv, if_neg hne]

/-- Witness of C12 with the example constants: a heap of 8 MB at the unknown speed 0 is
estimated at 4 ms, and the division is defined. -/
theorem estimators_never_divide_by_zero_witness :
    EstimateMarkCompactTime exampleConstants (8 * 1024 * 1024) 0 =
        EstimateMarkCompactTime exampleConstants (8 * 1024 * 1024)
          exampleConstants.kInitialConservativeMarkCompactSpeed ∧
      EstimateMarkCompactTimeChecked exampleConstants (8 * 1024 * 1024) 0 =
        some (EstimateMarkCompactTime exampleConstants (8 * 1024 * 1024) 0) ∧
      EstimateMarkCompactTime exampleConstants (8 * 1024 * 1024) 0 = 4 :=
  ⟨(estimators_never_divide_by_zero exampleConstants (by decide) (by decide)
      (by decide)).1 _,
    (estimators_never_divide_by_zero exampleConstants (by decide) (by decide)
      (by decide)).2.2.2.1 _ _,
    by decide⟩

/-- C13: `ShouldDoMarkCompact` is true if and only if the idle time is at least
`kMaxScheduledIdleTime` and at least the estimated mark-compact time;
`ShouldDoFinalIncrementalMarkCompact` is true if and only if the idle time is at least the
estimated finalization time, with no idle-time floor. -/
theorem shouldDoMarkCompact_spec (k : HeaderConstants) (idle size speed : Nat) :
    (ShouldDoMarkCompact k idle size speed = true ↔
        (idle ≥ k.kMaxScheduledIdleTime ∧ idle ≥ EstimateMarkCompactTime k size speed)) ∧
      (ShouldDoFinalIncrementalMarkCompact k idle size speed = true ↔
        idle ≥ EstimateFinalIncrementalMarkCompactTime k size speed) := by
  simp [ShouldDoMarkCompact, ShouldDoFinalIncrementalMarkCompact]


/-! ## The decision procedure as a whole -/

/-- `NothingOrDone` returns `DoNothing` or `Done`, and leaves the counter or adds one. -/
theorem nothingOrDone_cases (k : HeaderConstants) (self : GCIdleTimeHandler) (idle : ℚ) :
    NothingOrDone k self idle = (GCIdleTimeAction.Nothing, self) ∨
      NothingOrDone k self idle = (GCIdleTimeAction.Done, self) ∨
      (self.idle_times_which_made_no_progress_ < k.kMaxNoProgressIdleTimes ∧
        NothingOrDone k self idle =
          (GCIdleTimeAction.Nothing, ⟨self.idle_times_which_made_no_progress_ + 1⟩)) := by
  unfold NothingOrDone
  split
  · exact Or.inl rfl
  · split
    · exact Or.inr (Or.inl rfl)
    · rename_i hlt
      exact Or.inr (Or.inr ⟨not_le.mp hlt, rfl⟩)

/-- C14: `Compute` changes the counter only through `NothingOrDone`: if the idle time is
non-positive or the disposal predicate is false for the state, the counter after `Compute`
equals the counter before it; in every case the counter after `Compute` is unchanged or
exactly one greater, never smaller. -/
theorem compute_counter_frame (k : HeaderConstants) (flag : Bool) (self : GCIdleTimeHandler)
    (idle : ℚ) (st : GCIdleTimeHeapState) :
    ((idle ≤ 0 ∨
          ShouldDoContextDisposalMarkCompact st.contexts_disposed st.contexts_disposal_rate
            = false) →
        (Compute k flag self idle st).2.idle_times_which_made_no_progress_ =
          self.idle_times_which_made_no_progress_) ∧
      ((Compute k flag self idle st).2.idle_times_which_made_no_progress_ =
          self.idle_times_which_made_no_progress_ ∨
        (Compute k flag self idle st).2.idle_times_which_made_no_progress_ =
          self.idle_times_which_made_no_progress_ + 1) ∧
      self.idle_times_which_made_no_progress_ ≤
        (Compute k flag self idle st).2.idle_times_which_made_no_progress_ := by
  rcases idle_range_cases idle with hno | ⟨hge, hrange⟩
  · have h : (Compute k flag self idle st).2 = self := by
      rw [compute_of_no_idle_time k flag self idle st hno]
      split <;> rfl
    rw [h]
    exact ⟨fun _ => rfl, Or.inl rfl, le_refl _⟩
  · rw [compute_of_one_le k flag self idle st hge hrange]
    by_cases hd : ShouldDoContextDisposalMarkCompact st.contexts_disposed
        st.contexts_disposal_rate = true
    · rw [if_pos hd]
      refine ⟨?_, ?_, ?_⟩
      · rintro (hle | hf)
        · exact absurd (le_trans hge hle) (by norm_num : ¬ (1 : ℚ) ≤ 0)
        · rw [hd] at hf
          exact absurd hf (by decide)
      · rcases nothingOrDone_cases k self idle with h | h | ⟨_, h⟩ <;> rw [h]
        · exact Or.inl rfl
        · exact Or.inl rfl
        · exact Or.inr rfl
      · rcases nothingOrDone_cases k self idle with h | h | ⟨_, h⟩ <;> simp only [h] <;> simp
    · rw [if_neg hd]
      have h : (if (!flag || st.incremental_marking_stopped) = true then
          (GCIdleTimeAction.Done, self) else (GCIdleTimeAction.IncrementalStep, self)).2
            = self := by
        split <;> rfl
      rw [h]
      exact ⟨fun _ => rfl, Or.inl rfl, le_refl _⟩

/-- Witness of C14: without idle time the counter 3 stays 3, and a short disposal call
moves it to 4. -/
theorem compute_counter_frame_witness :
    (Compute exampleConstants true ⟨3⟩ 0 disposalState).2.idle_times_which_made_no_progress_
        = 3 ∧
      (3 : Int) ≤
        (Compute exampleConstants true ⟨3⟩ 1 disposalState).2.idle_times_which_made_no_progress_ :=
  ⟨(compute_counter_frame exampleConstants true ⟨3⟩ 0 disposalState).1 (Or.inl (le_refl 0)),
    (compute_counter_frame exampleConstants true ⟨3⟩ 1 disposalState).2.2⟩

/-- C16: `Compute` treats every idle time below 1 ms as no idle time: for `0 < idle < 1`
it returns the same action as `Compute(0, state)`, which is `FullGC` or `DoNothing` and
never `IncrementalStep` or `Done`, and it leaves the counter unchanged. -/
theorem compute_below_one_ms (k : HeaderConstants) (flag : Bool) (self : GCIdleTimeHandler)
    (idle : ℚ) (st : GCIdleTimeHeapState) (_hpos : 0 < idle) (hlt : idle < 1) :
    (Compute k flag self idle st).1 = (Compute k flag self 0 st).1 ∧
      ((Compute k flag self idle st).1 = GCIdleTimeAction.FullGC ∨
        (Compute k flag self idle st).1 = GCIdleTimeAction.Nothing) ∧
      (Compute k flag self idle st).1 ≠ GCIdleTimeAction.IncrementalStep ∧
      (Compute k flag self idle st).1 ≠ GCIdleTimeAction.Done ∧
      (Compute k flag self idle st).2.idle_times_which_made_no_progress_ =
        self.idle_times_which_made_no_progress_ := by
  rw [compute_of_lt_one k flag self idle st hlt,
    compute_of_lt_one k flag self 0 st (by norm_num)]
  split
  · exact ⟨rfl, Or.inl rfl, by dsimp only; decide, by dsimp only; decide, rfl⟩
  · exact ⟨rfl, Or.inr rfl, by dsimp only; decide, by dsimp only; decide, rfl⟩

/-- Witness of C16 at half a millisecond. -/
theorem compute_below_one_ms_witness :
    (Compute exampleConstants true ⟨3⟩ (1 / 2) markingState).1 =
        (Compute exampleConstants true ⟨3⟩ 0 markingState).1 ∧
      (Compute exampleConstants true ⟨3⟩ (1 / 2) markingState).2.idle_times_which_made_no_progress_
        = 3 :=
  ⟨(compute_below_one_ms exampleConstants true ⟨3⟩ (1 / 2) markingState (by norm_num)
      (by norm_num)).1,
    (compute_below_one_ms exampleConstants true ⟨3⟩ (1 / 2) markingState (by norm_num)
      (by norm_num)).2.2.2.2⟩

/-- C20: `Compute` ignores the heap size and the speed measurements: two heap states that
agree on `contexts_disposed`, `contexts_disposal_rate` and `incremental_marking_stopped`
give the same action and the same resulting counter. -/
theorem compute_depends_on_three_fields (k : HeaderConstants) (flag : Bool)
    (self : GCIdleTimeHandler) (idle : ℚ) (st1 st2 : GCIdleTimeHeapState)
    (hc : st1.contexts_disposed = st2.contexts_disposed)
    (hr : st1.contexts_disposal_rate = st2.contexts_disposal_rate)
    (hs : st1.incremental_marking_stopped = st2.incremental_marking_stopped) :
    (Compute k flag self idle st1).1 = (Compute k flag self idle st2).1 ∧
      (Compute k flag self idle st1).2.idle_times_which_made_no_progress_ =
        (Compute k flag self idle st2).2.idle_times_which_made_no_progress_ := by
  have h : Compute k flag self idle st1 = Compute k flag self idle st2 := by
    simp only [Compute, hc, hr, hs]
  rw [h]
  exact ⟨rfl, rfl⟩

/-- Witness of C20: a small idle heap and a large heap that is being swept get the same
decision without idle time, a full GC. -/
theorem compute_depends_on_three_fields_witness :
    (Compute exampleConstants true fresh 0 disposalState).1 =
        (Compute exampleConstants true fresh 0 largeHeapDisposalState).1 ∧
      disposalState.size_of_objects ≠ largeHeapDisposalState.size_of_objects ∧
      disposalState.sweeping_in_progress ≠ largeHeapDisposalState.sweeping_in_progress :=
  ⟨(compute_depends_on_three_fields exampleConstants true fresh 0 disposalState
      largeHeapDisposalState rfl rfl rfl).1, by decide, by decide⟩


/-! ## Sequences of calls -/

theorem reachesNoProgress_iff (k : HeaderConstants) (idle : ℚ) (st : GCIdleTimeHeapState) :
    reachesNoProgress k idle st = true ↔
      (1 ≤ idle ∧ idle < 2 ^ 31 ∧
        ShouldDoContextDisposalMarkCompact st.contexts_disposed st.contexts_disposal_rate
          = true ∧
        idle < k.kMinBackgroundIdleTime) := by
  have h : 0 < static_cast_int idle ↔ (1 ≤ idle ∧ idle < 2 ^ 31) := by
    rw [← not_le, static_cast_int_le_zero_iff, not_or, not_lt, not_le]
  simp only [reachesNoProgress, Bool.and_eq_true, decide_eq_true_eq, h, and_assoc]

/-- A call that reaches `NothingOrDone` below the threshold: compare, then increment. -/
theorem compute_of_reachesNoProgress (k : HeaderConstants) (flag : Bool)
    (self : GCIdleTimeHandler) (idle : ℚ) (st : GCIdleTimeHeapState)
    (h : reachesNoProgress k idle st = true) :
    Compute k flag self idle st =
      if self.idle_times_which_made_no_progress_ ≥ k.kMaxNoProgressIdleTimes then
        (GCIdleTimeAction.Done, self)
      else (GCIdleTimeAction.Nothing, ⟨self.idle_times_which_made_no_progress_ + 1⟩) := by
  obtain ⟨h1, hrange, hd, hlt⟩ := (reachesNoProgress_iff k idle st).mp h
  rw [compute_of_one_le k flag self idle st h1 hrange, if_pos hd,
    nothingOrDone_of_lt k self idle hlt]

/-- Every other call leaves the selector as it was. -/
theorem compute_of_not_reachesNoProgress (k : HeaderConstants) (flag : Bool)
    (self : GCIdleTimeHandler) (idle : ℚ) (st : GCIdleTimeHeapState)
    (h : ¬ reachesNoProgress k idle st = true) :
    (Compute k flag self idle st).2 = self := by
  rw [reachesNoProgress_iff] at h
  rcases idle_range_cases idle with hno | ⟨h1, hrange⟩
  · rw [compute_of_no_idle_time k flag self idle st hno]
    split <;> rfl
  · rw [compute_of_one_le k flag self idle st h1 hrange]
    by_cases hd : ShouldDoContextDisposalMarkCompact st.contexts_disposed
        st.contexts_disposal_rate = true
    · have hge : idle ≥ k.kMinBackgroundIdleTime := by
        by_contra hc
        exact h ⟨h1, hrange, hd, not_le.mp hc⟩
      rw [if_pos hd, nothingOrDone_of_ge k self idle hge]
    · rw [if_neg hd]
      split <;> rfl

/-- The action of the `j`-th call without progress, from any starting counter. -/
theorem noProgressActions_get (k : HeaderConstants)
    (calls : List (Bool × ℚ × GCIdleTimeHeapState)) :
    ∀ (self : GCIdleTimeHandler) (j : Nat) (a : GCIdleTimeAction),
      (noProgressActions k self calls)[j]? = some a →
      (a = GCIdleTimeAction.Nothing ∧
          self.idle_times_which_made_no_progress_ + j < k.kMaxNoProgressIdleTimes) ∨
        (a = GCIdleTimeAction.Done ∧
          k.kMaxNoProgressIdleTimes ≤ self.idle_times_which_made_no_progress_ + j) := by
  induction calls with
  | nil =>
    intro self j a h
    simp [noProgressActions] at h
  | cons c rest ih =>
    intro self j a h
    obtain ⟨flag, idle, st⟩ := c
    simp only [noProgressActions] at h
    by_cases hr : reachesNoProgress k idle st = true
    · rw [if_pos hr, compute_of_reachesNoProgress k flag self idle st hr] at h
      by_cases hge : self.idle_times_which_made_no_progress_ ≥ k.kMaxNoProgressIdleTimes
      · rw [if_pos hge] at h
        cases j with
        | zero =>
          simp only [List.getElem?_cons_zero, Option.some.injEq] at h
          right
          exact ⟨h.symm, by simpa using hge⟩
        | succ i =>
          simp only [List.getElem?_cons_succ] at h
          rcases ih self i a h with ⟨_, hlt⟩ | ⟨ha, hle⟩
          · omega
          · right
            refine ⟨ha, ?_⟩
            push_cast
            omega
      · rw [if_neg hge] at h
        cases j with
        | zero =>
          simp only [List.getElem?_cons_zero, Option.some.injEq] at h
          left
          refine ⟨h.symm, ?_⟩
          simp only [Nat.cast_zero, add_zero]
          omega
        | succ i =>
          simp only [List.getElem?_cons_succ] at h
          rcases ih _ i a h with ⟨ha, hlt⟩ | ⟨ha, hle⟩
          · left
            refine ⟨ha, ?_⟩
            push_cast
            simp only at hlt
            omega
          · right
            refine ⟨ha, ?_⟩
            push_cast
            simp only at hle
            omega
    · rw [if_neg hr, compute_of_not_reachesNoProgress k flag self idle st hr] at h
      exact ih self j a h

/-- The number of calls without progress that return `DoNothing`, from any starting
counter. -/
theorem noProgressActions_count (k : HeaderConstants)
    (calls : List (Bool × ℚ × GCIdleTimeHeapState)) :
    ∀ self : GCIdleTimeHandler,
      ((noProgressActions k self calls).count GCIdleTimeAction.Nothing : Int) ≤
        max (k.kMaxNoProgressIdleTimes - self.idle_times_which_made_no_progress_) 0 := by
  induction calls with
  | nil =>
    intro self
    simp [noProgressActions]
  | cons c rest ih =>
    intro self
    obtain ⟨flag, idle, st⟩ := c
    simp only [noProgressActions]
    by_cases hr : reachesNoProgress k idle st = true
    · rw [if_pos hr, compute_of_reachesNoProgress k flag self idle st hr]
      by_cases hge : self.idle_times_which_made_no_progress_ ≥ k.kMaxNoProgressIdleTimes
      · rw [if_pos hge]
        have hne : (GCIdleTimeAction.Done == GCIdleTimeAction.Nothing) = false := by decide
        rw [List.count_cons, hne]
        simpa using ih self
      · rw [if_neg hge]
        have heq : (GCIdleTimeAction.Nothing == GCIdleTimeAction.Nothing) = true := by decide
        rw [List.count_cons, heq]
        have := ih ⟨self.idle_times_which_made_no_progress_ + 1⟩
        simp only at this
        simp only [if_true, Nat.cast_add, Nat.cast_one]
        omega
    · rw [if_neg hr, compute_of_not_reachesNoProgress k flag self idle st hr]
      exact ih self

/-- C15: lack of progress is bounded.  In every finite sequence of `Compute` calls on a
freshly constructed selector, with arbitrary flag values, idle times and heap states, look
at the calls that reach `NothingOrDone` with an idle time below `kMinBackgroundIdleTime`:
at most `kMaxNoProgressIdleTimes` of them return `DoNothing` (none when the maximum is not
positive), namely only the first `kMaxNoProgressIdleTimes`, and every later one returns
`Done`. -/
theorem no_progress_bounded (k : HeaderConstants)
    (calls : List (Bool × ℚ × GCIdleTimeHeapState)) :
    ((noProgressActions k fresh calls).count GCIdleTimeAction.Nothing : Int) ≤
        max k.kMaxNoProgressIdleTimes 0 ∧
      ∀ (j : Nat) (a : GCIdleTimeAction), (noProgressActions k fresh calls)[j]? = some a →
        (a = GCIdleTimeAction.Nothing ∧ (j : Int) < k.kMaxNoProgressIdleTimes) ∨
          (a = GCIdleTimeAction.Done ∧ k.kMaxNoProgressIdleTimes ≤ (j : Int)) := by
  constructor
  · have h := noProgressActions_count k calls fresh
    simpa [fresh] using h
  · intro j a h
    have := noProgressActions_get k calls fresh j a h
    simpa [fresh] using this

theorem singleTry_two_calls :
    noProgressActions singleTryConstants fresh
        [(true, 1, disposalState), (false, 2, disposalState)] =
      [GCIdleTimeAction.Nothing, GCIdleTimeAction.Done] := by
  have hr : ∀ idle : ℚ, 1 ≤ idle → idle < 900 →
      reachesNoProgress singleTryConstants idle disposalState = true := by
    intro idle h1 h2
    rw [reachesNoProgress_iff]
    exact ⟨h1, lt_trans h2 (by norm_num), disposalState_shouldDo, by
      simpa [singleTryConstants, exampleConstants] using h2⟩
  have hr1 := hr 1 (by norm_num) (by norm_num)
  have hr2 := hr 2 (by norm_num) (by norm_num)
  simp only [noProgressActions, hr1, hr2, if_true,
    compute_of_reachesNoProgress singleTryConstants _ _ _ _ hr1,
    compute_of_reachesNoProgress singleTryConstants _ _ _ _ hr2]
  decide

/-- Witness of C15 with a maximum of 1: of two calls without progress the first returns
`DoNothing` and the second, at index 1, returns `Done`. -/
theorem no_progress_bounded_witness :
    noProgressActions singleTryConstants fresh
        [(true, 1, disposalState), (false, 2, disposalState)] =
        [GCIdleTimeAction.Nothing, GCIdleTimeAction.Done] ∧
      ((GCIdleTimeAction.Done = GCIdleTimeAction.Nothing ∧
          ((1 : Nat) : Int) < singleTryConstants.kMaxNoProgressIdleTimes) ∨
        (GCIdleTimeAction.Done = GCIdleTimeAction.Done ∧
          singleTryConstants.kMaxNoProgressIdleTimes ≤ ((1 : Nat) : Int))) :=
  ⟨singleTry_two_calls,
    (no_progress_bounded singleTryConstants
      [(true, 1, disposalState), (false, 2, disposalState)]).2 1 GCIdleTimeAction.Done
      (by rw [singleTry_two_calls]; rfl)⟩


/-- One call keeps the counter between 0 and the maximum. -/
theorem runCall_invariant (k : HeaderConstants) (self : GCIdleTimeHandler) (c : HandlerCall)
    (h0 : 0 ≤ self.idle_times_which_made_no_progress_)
    (hmax : self.idle_times_which_made_no_progress_ ≤ k.kMaxNoProgressIdleTimes) :
    0 ≤ (runCall k self c).idle_times_which_made_no_progress_ ∧
      (runCall k self c).idle_times_which_made_no_progress_ ≤ k.kMaxNoProgressIdleTimes := by
  have hnd : ∀ idle : ℚ,
      0 ≤ (NothingOrDone k self idle).2.idle_times_which_made_no_progress_ ∧
        (NothingOrDone k self idle).2.idle_times_which_made_no_progress_ ≤
          k.kMaxNoProgressIdleTimes := by
    intro idle
    rcases nothingOrDone_cases k self idle with h | h | ⟨hlt, h⟩ <;> rw [h] <;> dsimp only
    · exact ⟨h0, hmax⟩
    · exact ⟨h0, hmax⟩
    · omega
  cases c with
  | compute flag idle st =>
    simp only [runCall]
    by_cases hr : reachesNoProgress k idle st = true
    · obtain ⟨h1, hrange, hd, hlt⟩ := (reachesNoProgress_iff k idle st).mp hr
      rw [compute_of_one_le k flag self idle st h1 hrange, if_pos hd]
      exact hnd idle
    · rw [compute_of_not_reachesNoProgress k flag self idle st hr]
      exact ⟨h0, hmax⟩
  | nothingOrDone idle =>
    simp only [runCall]
    exact hnd idle

/-- C17: reachable-state invariant of the selector.  Starting from counter 0 and for
`kMaxNoProgressIdleTimes >= 0`, after any sequence of `Compute` and `NothingOrDone` calls
with arbitrary arguments the counter `c` satisfies `0 <= c <= kMaxNoProgressIdleTimes`; the
increment therefore never takes the counter past the maximum, an `int`. -/
theorem counter_invariant (k : HeaderConstants) (calls : List HandlerCall)
    (hk : 0 ≤ k.kMaxNoProgressIdleTimes) :
    0 ≤ (runCalls k fresh calls).idle_times_which_made_no_progress_ ∧
      (runCalls k fresh calls).idle_times_which_made_no_progress_ ≤
        k.kMaxNoProgressIdleTimes := by
  have hgen : ∀ (cs : List HandlerCall) (self : GCIdleTimeHandler),
      0 ≤ self.idle_times_which_made_no_progress_ →
      self.idle_times_which_made_no_progress_ ≤ k.kMaxNoProgressIdleTimes →
      0 ≤ (runCalls k self cs).idle_times_which_made_no_progress_ ∧
        (runCalls k self cs).idle_times_which_made_no_progress_ ≤
          k.kMaxNoProgressIdleTimes := by
    intro cs
    induction cs with
    | nil =>
      intro self h0 hmax
      exact ⟨h0, hmax⟩
    | cons c rest ih =>
      intro self h0 hmax
      obtain ⟨h0n, hmaxn⟩ := runCall_invariant k self c h0 hmax
      exact ih (runCall k self c) h0n hmaxn
  exact hgen calls fresh (le_refl 0) hk

/-- Witness of C17 with a maximum of 1: after three calls without progress the counter is
between 0 and 1. -/
theorem counter_invariant_witness :
    0 ≤ (runCalls singleTryConstants fresh
        [HandlerCall.nothingOrDone 1, HandlerCall.compute true 1 disposalState,
          HandlerCall.nothingOrDone 2]).idle_times_which_made_no_progress_ ∧
      (runCalls singleTryConstants fresh
        [HandlerCall.nothingOrDone 1, HandlerCall.compute true 1 disposalState,
          HandlerCall.nothingOrDone 2]).idle_times_which_made_no_progress_ ≤ 1 :=
  counter_invariant singleTryConstants _ (by decide)


/-! ## Monotonicity of the rounding and of the step size -/

theorem roundSig53_eq_roundAt (n : Nat) : roundSig53 n = roundAt (excessBits n n) n := rfl

/-- The excess bits are exactly those above a 53-bit significand. -/
theorem excessBits_spec (fuel : Nat) : ∀ n : Nat, n ≤ fuel →
    n < 2 ^ 53 * 2 ^ excessBits fuel n ∧
      (0 < excessBits fuel n → 2 ^ 52 * 2 ^ excessBits fuel n ≤ n) := by
  induction fuel with
  | zero =>
    intro n hn
    have h0 : n = 0 := Nat.le_zero.mp hn
    subst h0
    simp [excessBits]
  | succ f ih =>
    intro n hn
    unfold excessBits
    split
    · rename_i hlt
      exact ⟨by simpa using hlt, fun h => absurd h (lt_irrefl 0)⟩
    · rename_i hge
      have hhalf : n / 2 ≤ f := by omega
      obtain ⟨hup, hlow⟩ := ih (n / 2) hhalf
      generalize excessBits f (n / 2) = e at hup hlow ⊢
      rw [Nat.pow_succ]
      constructor
      · omega
      · intro _
        rcases Nat.eq_zero_or_pos e with he | he
        · subst he
          simp only [pow_zero] at hup ⊢
          omega
        · have := hlow he
          omega

theorem roundAt_mono (e a b : Nat) (hab : a ≤ b) : roundAt e a ≤ roundAt e b := by
  unfold roundAt
  have hE : 0 < 2 ^ e := by positivity
  have ha := Nat.div_add_mod a (2 ^ e)
  have hb := Nat.div_add_mod b (2 ^ e)
  have hra := Nat.mod_lt a hE
  have hrb := Nat.mod_lt b hE
  have hq : a / 2 ^ e ≤ b / 2 ^ e := Nat.div_le_div_right hab
  generalize 2 ^ e = E at *
  generalize a / E = qa at *
  generalize b / E = qb at *
  generalize a % E = ra at *
  generalize b % E = rb at *
  have hloA : (if E < 2 * ra ∨ 2 * ra = E ∧ qa % 2 = 1 then (qa + 1) * E else qa * E)
      ≤ (qa + 1) * E := by
    split
    · exact le_refl _
    · exact Nat.mul_le_mul_right _ (Nat.le_succ _)
  have hhiB : qb * E ≤
      (if E < 2 * rb ∨ 2 * rb = E ∧ qb % 2 = 1 then (qb + 1) * E else qb * E) := by
    split
    · exact Nat.mul_le_mul_right _ (Nat.le_succ _)
    · exact le_refl _
  rcases Nat.lt_or_ge qa qb with hlt | hge
  · exact le_trans hloA (le_trans (Nat.mul_le_mul_right _ hlt) hhiB)
  · have heq : qa = qb := le_antisymm hq hge
    subst heq
    have hr : ra ≤ rb := by
      have : E * qa + ra ≤ E * qa + rb := by omega
      omega
    split
    · rename_i hca
      split
      · exact le_refl _
      · rename_i hcb
        exfalso
        apply hcb
        rcases hca with h | ⟨h, hodd⟩
        · left
          omega
        · rcases Nat.lt_or_ge E (2 * rb) with h2 | h2
          · left
            exact h2
          · right
            exact ⟨by omega, hodd⟩
    · split
      · exact Nat.mul_le_mul_right _ (Nat.le_succ _)
      · exact le_refl _

/-- Rounding to 53 significant bits is monotone. -/
theorem roundSig53_mono (a b : Nat) (hab : a ≤ b) : roundSig53 a ≤ roundSig53 b := by
  rw [roundSig53_eq_roundAt, roundSig53_eq_roundAt]
  obtain ⟨haup, _⟩ := excessBits_spec a a (le_refl a)
  obtain ⟨hbup, hblow⟩ := excessBits_spec b b (le_refl b)
  have hle : excessBits a a ≤ excessBits b b := by
    apply excessBits_le
    rw [Nat.pow_add]
    omega
  rcases Nat.eq_or_lt_of_le hle with heq | hlt
  · rw [heq]
    exact roundAt_mono _ a b hab
  · have hpos : 0 < excessBits b b := by omega
    have hblow := hblow hpos
    generalize excessBits a a = ea at *
    generalize excessBits b b = eb at *
    have hEa : 0 < 2 ^ ea := by positivity
    have hEb : 0 < 2 ^ eb := by positivity
    -- the rounded `a` is at most `2 ^ (53 + ea)`
    have hqa : a / 2 ^ ea < 2 ^ 53 := by
      rw [Nat.div_lt_iff_lt_mul hEa]
      exact haup
    have hRa : roundAt ea a ≤ 2 ^ 53 * 2 ^ ea := by
      unfold roundAt
      split
      · exact Nat.mul_le_mul_right _ hqa
      · exact Nat.mul_le_mul_right _ (le_of_lt hqa)
    -- the rounded `b` is at least `2 ^ (52 + eb)`
    have hqb : 2 ^ 52 ≤ b / 2 ^ eb := by
      rw [Nat.le_div_iff_mul_le hEb]
      exact hblow
    have hRb : 2 ^ 52 * 2 ^ eb ≤ roundAt eb b := by
      unfold roundAt
      split
      · exact Nat.mul_le_mul_right _ (le_trans hqb (Nat.le_succ _))
      · exact Nat.mul_le_mul_right _ hqb
    have hpow : 2 ^ 53 * 2 ^ ea ≤ 2 ^ 52 * 2 ^ eb := by
      have h1 : 2 ^ (ea + 1) ≤ 2 ^ eb := Nat.pow_le_pow_right (by decide) hlt
      rw [Nat.pow_succ] at h1
      omega
    exact le_trans hRa (le_trans hpow hRb)

/-- Rounding to 53 significant bits adds at most one part in `2 ^ 53`. -/
theorem roundSig53_le (n : Nat) : 2 ^ 53 * roundSig53 n ≤ (2 ^ 53 + 1) * n := by
  obtain ⟨_, hhi⟩ := roundSig53_bounds n
  obtain ⟨_, hlow⟩ := excessBits_spec n n (le_refl n)
  generalize roundSig53 n = R at hhi ⊢
  rcases Nat.eq_zero_or_pos (excessBits n n) with he | he
  · rw [he] at hhi
    simp only [pow_zero] at hhi
    omega
  · have h := hlow he
    generalize 2 ^ excessBits n n = E at hhi h
    omega

/-- The scaling by the double 0.9 is monotone. -/
theorem scaleByConservativeTimeRatio_mono (p q : Nat) (hpq : p ≤ q) :
    scaleByConservativeTimeRatio p ≤ scaleByConservativeTimeRatio q := by
  unfold scaleByConservativeTimeRatio
  apply Nat.div_le_div_right
  apply roundSig53_mono
  exact Nat.mul_le_mul_right _ (roundSig53_mono p q hpq)

/-- The scaling by the double 0.9 never increases the step size. -/
theorem scaleByConservativeTimeRatio_le (p : Nat) : scaleByConservativeTimeRatio p ≤ p := by
  unfold scaleByConservativeTimeRatio
  have h1 := roundSig53_le p
  have h2 := roundSig53_le (roundSig53 p * kConservativeTimeRatioNumerator)
  simp only [kConservativeTimeRatioNumerator] at h2 ⊢
  generalize roundSig53 (roundSig53 p * 8106479329266893) = R at h2 ⊢
  generalize roundSig53 p = d at h1 h2
  have hR : R ≤ p * 2 ^ 53 := by
    norm_num at h1 h2 ⊢
    omega
  calc R / 2 ^ 53 ≤ p * 2 ^ 53 / 2 ^ 53 := Nat.div_le_div_right hR
    _ = p := Nat.mul_div_cancel _ (by positivity)


/-- The step size never exceeds the maximum, whatever the inputs. -/
theorem estimateMarkingStepSize_le_max (k : HeaderConstants) (idle speed : Nat) :
    EstimateMarkingStepSize k idle speed ≤ k.kMaximumMarkingStepSize := by
  simp only [EstimateMarkingStepSize]
  generalize (if speed = 0 then k.kInitialConservativeMarkingSpeed else speed) = sp
  by_cases hc : sp * idle % 2 ^ k.sizeBits / sp ≠ idle
  · rw [if_pos hc]
  · rw [if_neg hc]
    by_cases hm : sp * idle % 2 ^ k.sizeBits > k.kMaximumMarkingStepSize
    · rw [if_pos hm]
    · rw [if_neg hm]
      exact le_trans (scaleByConservativeTimeRatio_le _) (not_lt.mp hm)

/-- The step size when the round-trip check fails: the maximum. -/
theorem estimateMarkingStepSize_of_check_fails (k : HeaderConstants) (idle speed : Nat)
    (h : ((if speed = 0 then k.kInitialConservativeMarkingSpeed else speed) * idle
        % 2 ^ k.sizeBits) / (if speed = 0 then k.kInitialConservativeMarkingSpeed else speed)
      ≠ idle) :
    EstimateMarkingStepSize k idle speed = k.kMaximumMarkingStepSize := by
  simp only [EstimateMarkingStepSize]
  rw [if_pos h]

/-- The step size when the product of the speed in use and the idle time fits in `size_t`
and is within the maximum: the scaled product. -/
theorem estimateMarkingStepSize_of_small_product (k : HeaderConstants) (idle speed : Nat)
    (hs : 0 < (if speed = 0 then k.kInitialConservativeMarkingSpeed else speed))
    (hfit : (if speed = 0 then k.kInitialConservativeMarkingSpeed else speed) * idle
      < 2 ^ k.sizeBits)
    (hsmall : (if speed = 0 then k.kInitialConservativeMarkingSpeed else speed) * idle
      ≤ k.kMaximumMarkingStepSize) :
    EstimateMarkingStepSize k idle speed =
      scaleByConservativeTimeRatio
        ((if speed = 0 then k.kInitialConservativeMarkingSpeed else speed) * idle) := by
  simp only [EstimateMarkingStepSize]
  generalize (if speed = 0 then k.kInitialConservativeMarkingSpeed else speed) = sp
    at hs hfit hsmall ⊢
  simp only [Nat.mod_eq_of_lt hfit, Nat.mul_div_cancel_left idle hs, ne_eq,
    not_true_eq_false, if_false]
  rw [if_neg (not_lt.mpr hsmall)]

/-- The step size when the product fits in `size_t` and exceeds the maximum: the maximum. -/
theorem estimateMarkingStepSize_of_large_product (k : HeaderConstants) (idle speed : Nat)
    (hs : 0 < (if speed = 0 then k.kInitialConservativeMarkingSpeed else speed))
    (hfit : (if speed = 0 then k.kInitialConservativeMarkingSpeed else speed) * idle
      < 2 ^ k.sizeBits)
    (hlarge : (if speed = 0 then k.kInitialConservativeMarkingSpeed else speed) * idle
      > k.kMaximumMarkingStepSize) :
    EstimateMarkingStepSize k idle speed = k.kMaximumMarkingStepSize := by
  simp only [EstimateMarkingStepSize]
  generalize (if speed = 0 then k.kInitialConservativeMarkingSpeed else speed) = sp
    at hs hfit hlarge ⊢
  simp only [Nat.mod_eq_of_lt hfit, Nat.mul_div_cancel_left idle hs, ne_eq,
    not_true_eq_false, if_false]
  rw [if_pos hlarge]

/-- C18: `EstimateMarkingStepSize` is bounded and monotone in the idle time, overflow
included: for every marking speed `s` and all idle times `0 < t1 <= t2`,
`EstimateMarkingStepSize(t1, s) <= EstimateMarkingStepSize(t2, s) <= kMaximumMarkingStepSize`,
whether or not `s * t1` or `s * t2` overflows `size_t`. -/
theorem estimateMarkingStepSize_mono (k : HeaderConstants) (s t1 t2 : Nat) (h1 : 0 < t1)
    (h12 : t1 ≤ t2) :
    EstimateMarkingStepSize k t1 s ≤ EstimateMarkingStepSize k t2 s ∧
      EstimateMarkingStepSize k t2 s ≤ k.kMaximumMarkingStepSize := by
  refine ⟨?_, estimateMarkingStepSize_le_max k t2 s⟩
  have hW : 0 < 2 ^ k.sizeBits := by positivity
  rcases Nat.eq_zero_or_pos (if s = 0 then k.kInitialConservativeMarkingSpeed else s)
    with hz | hpos
  · -- no usable speed at all: both calls give the maximum
    have hfail : ∀ t : Nat, 0 < t →
        ((if s = 0 then k.kInitialConservativeMarkingSpeed else s) * t % 2 ^ k.sizeBits)
          / (if s = 0 then k.kInitialConservativeMarkingSpeed else s) ≠ t := by
      intro t ht
      rw [hz]
      simp only [Nat.div_zero]
      omega
    rw [estimateMarkingStepSize_of_check_fails k t1 s (hfail t1 h1),
      estimateMarkingStepSize_of_check_fails k t2 s (hfail t2 (lt_of_lt_of_le h1 h12))]
  · rcases Nat.lt_or_ge
        ((if s = 0 then k.kInitialConservativeMarkingSpeed else s) * t2) (2 ^ k.sizeBits)
      with hfit2 | hov2
    · -- neither product wraps
      have hle : (if s = 0 then k.kInitialConservativeMarkingSpeed else s) * t1 ≤
          (if s = 0 then k.kInitialConservativeMarkingSpeed else s) * t2 :=
        Nat.mul_le_mul_left _ h12
      have hfit1 := lt_of_le_of_lt hle hfit2
      rcases Nat.lt_or_ge k.kMaximumMarkingStepSize
          ((if s = 0 then k.kInitialConservativeMarkingSpeed else s) * t2) with hlarge | hsmall
      · rw [estimateMarkingStepSize_of_large_product k t2 s hpos hfit2 hlarge]
        exact estimateMarkingStepSize_le_max k t1 s
      · rw [estimateMarkingStepSize_of_small_product k t2 s hpos hfit2 hsmall,
          estimateMarkingStepSize_of_small_product k t1 s hpos hfit1 (le_trans hle hsmall)]
        exact scaleByConservativeTimeRatio_mono _ _ hle
    · -- the larger product wraps: the result is the maximum
      have hmod : (if s = 0 then k.kInitialConservativeMarkingSpeed else s) * t2
          % 2 ^ k.sizeBits <
          (if s = 0 then k.kInitialConservativeMarkingSpeed else s) * t2 :=
        lt_of_lt_of_le (Nat.mod_lt _ hW) hov2
      have hfail := Nat.ne_of_lt (Nat.div_lt_of_lt_mul hmod)
      rw [estimateMarkingStepSize_of_check_fails k t2 s hfail]
      exact estimateMarkingStepSize_le_max k t1 s

/-- Witness of C18 at speed 102400 bytes/ms: 16 ms give less than 7169 ms, which give the
maximum, as does an idle time whose product with the speed wraps. -/
theorem estimateMarkingStepSize_mono_witness :
    (EstimateMarkingStepSize exampleConstants 16 102400 ≤
        EstimateMarkingStepSize exampleConstants 7169 102400 ∧
      EstimateMarkingStepSize exampleConstants 7169 102400 ≤
        exampleConstants.kMaximumMarkingStepSize) ∧
      (EstimateMarkingStepSize exampleConstants 7169 102400 ≤
        EstimateMarkingStepSize exampleConstants (2 ^ 63) 102400 ∧
      EstimateMarkingStepSize exampleConstants (2 ^ 63) 102400 ≤
        exampleConstants.kMaximumMarkingStepSize) :=
  ⟨estimateMarkingStepSize_mono exampleConstants 102400 16 7169 (by decide) (by decide),
    estimateMarkingStepSize_mono exampleConstants 102400 7169 (2 ^ 63) (by decide)
      (by decide)⟩


end GCIdleTimeHandler
